import Mathlib

/-!
Verification development for the Block Patch Engine: a shallow embedding in
Lean 4 of the document model, patch applier, scope enforcer, provider
normalizer and undo machinery of the repository, together with theorems
settling the specification claims.

Conventions of the embedding:
  * JavaScript strings are Lean `String`s; the ASCII-only fragments of
    `trim`/`toLowerCase` and of the character classes `[a-z0-9]` / `[A-Z]`
    are modelled exactly (the sources only ever feed ASCII tokens through
    these paths).
  * JavaScript objects with optional fields become structures with `Option`
    fields; a spread `{ ...a, ...b }` becomes a field-wise right-biased merge.
  * Thrown exceptions become `Except.error`; `null` returns become `none`.
  * In-place array mutation through a reference obtained from a recursive
    search (`findBlockLocation` + `splice`/assignment in `applyPatch`) is
    rendered as a recursive function that rebuilds the tree with the edit
    performed at the first DFS occurrence of the target id — the same
    traversal order as the source search.
-/

namespace BlockPatch

/-- JavaScript `String.prototype.trim`, modelled character-wise. -/
def jsTrim (s : String) : String :=
  String.mk ((s.data.dropWhile Char.isWhitespace).reverse.dropWhile Char.isWhitespace |>.reverse)

/-- ASCII lower-case letter or digit, the character class `[a-z0-9]`. -/
def isAsciiLowerNum (c : Char) : Bool :=
  (('a' ≤ c) && (c ≤ 'z')) || (('0' ≤ c) && (c ≤ '9'))

/-- ASCII upper-case letter, the character class `[A-Z]`. -/
def isAsciiUpper (c : Char) : Bool :=
  ('A' ≤ c) && (c ≤ 'Z')

/-- ASCII fragment of JavaScript `toLowerCase`, applied character-wise. -/
def jsToLower (s : String) : String :=
  String.mk (s.data.map Char.toLower)

/-- Character-list version of first-arg-starts-with-second. -/
def startsWithChars : List Char → List Char → Bool
  | _, [] => true
  | [], _ :: _ => false
  | a :: as, b :: bs => (a = b : Bool) && startsWithChars as bs

/-- Substring test on character lists (used to state that an error message
does not mention a block kind). -/
def containsChars : List Char → List Char → Bool
  | [], needle => needle.isEmpty
  | c :: rest, needle => startsWithChars (c :: rest) needle || containsChars rest needle

/-- The optional inline text style carried by heading / paragraph blocks and
by `update_content` ops (source: `TextStyle` in packages/blocks/src/index.ts). -/
structure TextStyle where
  color : Option String
  fontSize : Option String
  fontWeight : Option String
  textAlign : Option String
deriving Repr, DecidableEq

/-- The empty style object `{}`. -/
def emptyTextStyle : TextStyle := ⟨none, none, none, none⟩

/-- Whether a style record has no keys (`Object.keys(s).length === 0`). -/
def styleIsEmpty (s : TextStyle) : Bool :=
  s.color.isNone && s.fontSize.isNone && s.fontWeight.isNone && s.textAlign.isNone

/-- The object spread `{ ...current, ...incoming }` on style records: a key
present on `incoming` wins, a key absent on `incoming` is taken from
`current`. -/
def mergeTextStyleRecords (current incoming : TextStyle) : TextStyle :=
  ⟨incoming.color.or current.color,
   incoming.fontSize.or current.fontSize,
   incoming.fontWeight.or current.fontWeight,
   incoming.textAlign.or current.textAlign⟩

/-- Source `mergeStyle` (packages/blocks/src/applyPatch.ts): merges the style
parsed from content with the explicitly supplied style; returns `undefined`
when both are absent or the merge has no keys. -/
def mergeStyle (current incoming : Option TextStyle) : Option TextStyle :=
  match current, incoming with
  | none, none => none
  | c, i =>
    let merged := mergeTextStyleRecords (c.getD emptyTextStyle) (i.getD emptyTextStyle)
    if styleIsEmpty merged then none else some merged

/-- One `key: value` CSS declaration applied to a style record (the body of
the loop in source `parseStyleDeclaration`); later declarations overwrite
earlier ones for the same key. -/
def applyStyleDeclaration (style : TextStyle) (decl : String) : TextStyle :=
  let parts := decl.splitOn ":"
  let key := jsToLower (jsTrim (parts.getD 0 ""))
  let value := jsTrim (parts.getD 1 "")
  if key = "" || value = "" then style
  else if key = "color" then ⟨some value, style.fontSize, style.fontWeight, style.textAlign⟩
  else if key = "font-size" then ⟨style.color, some value, style.fontWeight, style.textAlign⟩
  else if key = "font-weight" then ⟨style.color, style.fontSize, some value, style.textAlign⟩
  else if key = "text-align" &&
      (value = "left" || value = "center" || value = "right" || value = "justify") then
    ⟨style.color, style.fontSize, style.fontWeight, some value⟩
  else style

/-- Source `parseStyleDeclaration`: split a `style="..."` attribute value on
`;` and collect the recognized declarations. -/
def parseStyleDeclaration (styleValue : String) : TextStyle :=
  (styleValue.splitOn ";").foldl applyStyleDeclaration emptyTextStyle

/-- Tag-stripping scanner for the regex replace `/<[^>]*>/g`: a `<` opens a
tag only when a `>` still follows (otherwise the regex has no match and the
character is kept); inside a tag everything up to the first `>` is dropped. -/
def stripTagsGo : Bool → List Char → List Char
  | _, [] => []
  | true, c :: rest => if c = '>' then stripTagsGo false rest else stripTagsGo true rest
  | false, c :: rest =>
    if c = '<' && rest.contains '>' then stripTagsGo true rest else c :: stripTagsGo false rest

/-- Source `stripHtmlTags`: remove complete `<...>` tags, then trim. -/
def stripHtmlTags (input : String) : String :=
  jsTrim (String.mk (stripTagsGo false input.data))

/-- Word character `\w` = `[A-Za-z0-9_]`, used for the `\b` boundaries in the
span-style regex. -/
def isWordChar (c : Char) : Bool :=
  isAsciiLowerNum c || isAsciiUpper c || c = '_'

/-- Case-insensitive prefix test (the regex carries the `i` flag). -/
def ciStartsWith : List Char → List Char → Bool
  | _, [] => true
  | [], _ :: _ => false
  | a :: as, b :: bs => (a.toLower = b.toLower : Bool) && ciStartsWith as bs

/-- Scan the attribute region `[^>]*\bstyle=` of the span regex: look for a
case-insensitive `style=` preceded by a word boundary, without crossing the
closing `>`; return the characters after the `=`. The model resolves the
regex engine's greedy-plus-backtracking choice among several `style=`
attributes in one tag to the leftmost viable occurrence. -/
def findStyleEq (prev : Char) : List Char → Option (List Char)
  | [] => none
  | c :: rest =>
    if c = '>' then none
    else if !isWordChar prev && ciStartsWith (c :: rest) ("style=".data) then
      some ((c :: rest).drop 6)
    else findStyleEq c rest

/-- The quoted attribute value `["']([^"']+)["']`: an opening quote, at least
one character that is not a quote of either kind, and a closing quote. -/
def takeQuoted : List Char → Option (List Char × List Char)
  | [] => none
  | q :: rest =>
    if q = '"' || q = '\'' then
      let value := rest.takeWhile (fun c => !(c = '"' || c = '\''))
      match rest.drop value.length with
      | [] => none
      | _ :: rem => if value.length > 0 then some (value, rem) else none
    else none

/-- The tail `[^>]*>` of the opening tag: skip to the first `>`. -/
def skipToGt : List Char → Option (List Char)
  | [] => none
  | c :: rest => if c = '>' then some rest else skipToGt rest

/-- The lazy body `([\s\S]*?)<\/span>`: the characters before the first
case-insensitive `</span>`, or no match when none follows. -/
def splitAtCloseSpan : List Char → Option (List Char × List Char)
  | [] => none
  | c :: rest =>
    if ciStartsWith (c :: rest) ("</span>".data) then some ([], (c :: rest).drop 7)
    else
      match splitAtCloseSpan rest with
      | some (body, rem) => some (c :: body, rem)
      | none => none

/-- Attempt the whole span-style pattern at one start position. -/
def tryMatchSpanAt (l : List Char) : Option (List Char × List Char) :=
  if ciStartsWith l ("<span".data) then
    match l.drop 5 with
    | [] => none
    | b :: rest2 =>
      if isWordChar b then none
      else
        match findStyleEq 'n' (b :: rest2) with
        | none => none
        | some afterStyleEq =>
          match takeQuoted afterStyleEq with
          | none => none
          | some (value, afterQuote) =>
            match skipToGt afterQuote with
            | none => none
            | some afterTag =>
              match splitAtCloseSpan afterTag with
              | none => none
              | some (body, _) => some (value, body)
  else none

/-- Leftmost match of the span-style regex over the content. -/
def findSpanIn : List Char → Option (List Char × List Char)
  | [] => none
  | c :: rest =>
    match tryMatchSpanAt (c :: rest) with
    | some r => some r
    | none => findSpanIn rest

/-- Source `extractTextAndStyle` (packages/blocks/src/applyPatch.ts): match
the first styled span; fall back to the raw content when there is none, to
the stripped whole content when the span body strips to empty, and drop the
style when it parses to no keys. -/
def extractTextAndStyle (content : String) : String × Option TextStyle :=
  match findSpanIn content.data with
  | none => (content, none)
  | some (styleChars, bodyChars) =>
    let text := stripHtmlTags (String.mk bodyChars)
    let textStyle := parseStyleDeclaration (String.mk styleChars)
    if text = "" then (stripHtmlTags content, none)
    else if styleIsEmpty textStyle then (text, none)
    else (text, some textStyle)

/-- Items of a `rich` block (source `RichItem`); the opaque
`Record<string, unknown>` chart config is modelled as an association list. -/
inductive RichItem where
  | text (text : String) : RichItem
  | image (src : String) (alt : Option String) (caption : Option String)
      (widthPercent : Option Nat) : RichItem
  | chart (title : Option String) (height : Option Nat)
      (option : List (String × String)) : RichItem
deriving Repr, DecidableEq

mutual

/-- The document node (source `Block` in packages/blocks/src/index.ts); a
`columns` block is the one recursive case. -/
inductive Block where
  | heading (id : String) (level : Nat) (text : String) (textStyle : Option TextStyle) : Block
  | paragraph (id : String) (text : String) (textStyle : Option TextStyle) : Block
  | divider (id : String) : Block
  | image (id : String) (src : String) (alt : Option String) (caption : Option String)
      (widthPercent : Option Nat) : Block
  | chart (id : String) (title : Option String) (height : Option Nat)
      (option : List (String × String)) : Block
  | rich (id : String) (items : List RichItem) : Block
  | columns (id : String) (gap : Option Nat) (cols : List Column) : Block

/-- A column of a `columns` block (source `ColumnsBlockColumn`). -/
inductive Column where
  | mk (id : String) (blocks : List Block) : Column

end

/-- The `id` field shared by every block variant. -/
def Block.id : Block → String
  | .heading i _ _ _ => i
  | .paragraph i _ _ => i
  | .divider i => i
  | .image i _ _ _ _ => i
  | .chart i _ _ _ => i
  | .rich i _ => i
  | .columns i _ _ => i

/-- The `type` discriminator string of a block. -/
def Block.kindName : Block → String
  | .heading _ _ _ _ => "heading"
  | .paragraph _ _ _ => "paragraph"
  | .divider _ => "divider"
  | .image _ _ _ _ _ => "image"
  | .chart _ _ _ _ => "chart"
  | .rich _ _ => "rich"
  | .columns _ _ _ => "columns"

/-- The optional `textStyle` field (present on heading and paragraph). -/
def Block.styleOf : Block → Option TextStyle
  | .heading _ _ _ st => st
  | .paragraph _ _ st => st
  | _ => none

/-- The document (source `Page`). -/
structure Page where
  id : String
  title : String
  blocks : List Block

/-- The canonical patch operations (source `PatchOp` in
packages/blocks/src/types/patch.ts). -/
inductive PatchOp where
  | update_content (id : String) (content : String) (textStyle : Option TextStyle) : PatchOp
  | replace_block (id : String) (block : Block) : PatchOp
  | insert_after (afterId : String) (block : Block) : PatchOp
  | delete_block (id : String) : PatchOp

/-- A patch: a list of ops (source `Patch`). -/
structure Patch where
  ops : List PatchOp

/-- The identifier an op is addressed to: `afterId` for `insert_after`,
`id` otherwise (the dispatch used by the scope enforcer and the applier). -/
def PatchOp.targetId : PatchOp → String
  | .update_content i _ _ => i
  | .replace_block i _ => i
  | .insert_after a _ => a
  | .delete_block i => i

mutual

/-- The ids of every block in a subtree, root first, in the DFS order of the
source searches (`collectDescendantIds` adds the block's own id, then
recurses through each column's blocks). -/
def collectDescendantIds : Block → List String
  | .heading i _ _ _ => [i]
  | .paragraph i _ _ => [i]
  | .divider i => [i]
  | .image i _ _ _ _ => [i]
  | .chart i _ _ _ => [i]
  | .rich i _ => [i]
  | .columns i _ cols => i :: columnsDescendantIds cols

/-- Descendant ids of a column list. -/
def columnsDescendantIds : List Column → List String
  | [] => []
  | .mk _ bs :: rest => allIds bs ++ columnsDescendantIds rest

/-- All block ids occurring anywhere in a block list. -/
def allIds : List Block → List String
  | [] => []
  | b :: rest => collectDescendantIds b ++ allIds rest

end

mutual

/-- Source `findBlockLocation` (packages/blocks/src/applyPatch.ts), reduced
to the block found: scan the list in order, match on id first, then descend
into each column of a `columns` block before moving to the next sibling. -/
def findBlock (blocks : List Block) (id : String) : Option Block :=
  match blocks with
  | [] => none
  | b :: rest =>
    if b.id = id then some b
    else
      match b with
      | .columns _ _ cols =>
        match findBlockInColumns cols id with
        | some r => some r
        | none => findBlock rest id
      | _ => findBlock rest id

/-- Column-list part of `findBlockLocation`. -/
def findBlockInColumns (cols : List Column) (id : String) : Option Block :=
  match cols with
  | [] => none
  | .mk _ bs :: rest =>
    match findBlock bs id with
    | some r => some r
    | none => findBlockInColumns rest id

end

/-- What `applyPatch` does to the owning array once `findBlockLocation` has
returned a location: assign the updated block (`modify`), `splice` a new
block in after the found index (`insertAfter`), or `splice` the found index
out (`delete`). A `modify` whose update throws propagates the error. -/
inductive EditKind where
  | modify (f : Block → Except String Block) : EditKind
  | insertAfter (b : Block) : EditKind
  | delete : EditKind

/-- Perform an `EditKind` at the found position of the owning list. -/
def editHere (k : EditKind) (b : Block) (rest : List Block) : Except String (List Block) :=
  match k with
  | .modify f =>
    match f b with
    | .ok b2 => .ok (b2 :: rest)
    | .error e => .error e
  | .insertAfter nb => .ok (b :: nb :: rest)
  | .delete => .ok rest

mutual

/-- The pure rendering of `findBlockLocation` followed by the in-place
mutation of the found owning array: rebuild the tree with the edit performed
at the first DFS occurrence of `id`; `none` when the id is nowhere in the
tree. -/
def editBlocks (blocks : List Block) (id : String) (k : EditKind) :
    Option (Except String (List Block)) :=
  match blocks with
  | [] => none
  | b :: rest =>
    if b.id = id then
      some (editHere k b rest)
    else
      match b with
      | .columns ci gap cols =>
        match editColumns cols id k with
        | some (.ok cols2) => some (.ok (Block.columns ci gap cols2 :: rest))
        | some (.error e) => some (.error e)
        | none =>
          match editBlocks rest id k with
          | some (.ok rest2) => some (.ok (Block.columns ci gap cols :: rest2))
          | r => r
      | _ =>
        match editBlocks rest id k with
        | some (.ok rest2) => some (.ok (b :: rest2))
        | r => r

/-- Column-list part of the edit traversal. -/
def editColumns (cols : List Column) (id : String) (k : EditKind) :
    Option (Except String (List Column)) :=
  match cols with
  | [] => none
  | .mk ci bs :: rest =>
    match editBlocks bs id k with
    | some (.ok bs2) => some (.ok (Column.mk ci bs2 :: rest))
    | some (.error e) => some (.error e)
    | none =>
      match editColumns rest id k with
      | some (.ok rest2) => some (.ok (Column.mk ci bs :: rest2))
      | r => r

end

/-- Source `updateFirstRichTextItem`: replace the first text item, or append
one if there is none. -/
def updateFirstRichTextItem : List RichItem → String → List RichItem
  | [], text => [RichItem.text text]
  | RichItem.text _ :: rest, text => RichItem.text text :: rest
  | item :: rest, text => item :: updateFirstRichTextItem rest text

/-- Source `updateBlockContent`: parse the content, merge the parsed style
with the explicitly supplied one, and update per block kind; divider, chart
and columns blocks throw. -/
def updateBlockContent (block : Block) (content : String) (explicitStyle : Option TextStyle) :
    Except String Block :=
  let parsed := extractTextAndStyle content
  let nextStyle := mergeStyle parsed.2 explicitStyle
  match block with
  | .heading i lv _ st =>
    .ok (.heading i lv parsed.1 (if nextStyle.isSome then nextStyle else st))
  | .paragraph i _ st =>
    .ok (.paragraph i parsed.1 (if nextStyle.isSome then nextStyle else st))
  | .image i src alt _ w => .ok (.image i src alt (some parsed.1) w)
  | .rich i items => .ok (.rich i (updateFirstRichTextItem items parsed.1))
  | .divider i => .error ("Block \"" ++ i ++ "\" does not support content updates")
  | .chart i _ _ _ => .error ("Block \"" ++ i ++ "\" does not support content updates")
  | .columns i _ _ => .error ("Block \"" ++ i ++ "\" does not support content updates")

/-- One iteration of the op loop in source `applyPatch`: locate the target
(`findBlockLocation`), throw `Block id not found` when absent, otherwise
mutate the owning array. -/
def applyOp (blocks : List Block) (op : PatchOp) : Except String (List Block) :=
  match op with
  | .update_content i content style =>
    match editBlocks blocks i (.modify (fun b => updateBlockContent b content style)) with
    | none => .error ("Block id not found: " ++ i)
    | some r => r
  | .replace_block i nb =>
    match editBlocks blocks i (.modify (fun _ => .ok nb)) with
    | none => .error ("Block id not found: " ++ i)
    | some r => r
  | .insert_after a nb =>
    match editBlocks blocks a (.insertAfter nb) with
    | none => .error ("Block id not found: " ++ a)
    | some r => r
  | .delete_block i =>
    match editBlocks blocks i .delete with
    | none => .error ("Block id not found: " ++ i)
    | some r => r

/-- The op loop of source `applyPatch`, run on the working copy; the first
thrown error aborts the whole run. -/
def applyOps (blocks : List Block) : List PatchOp → Except String (List Block)
  | [] => .ok blocks
  | op :: rest =>
    match applyOp blocks op with
    | .ok blocks2 => applyOps blocks2 rest
    | .error e => .error e

/-- Source `applyPatch`: run the ops on a structural clone of the page's
blocks and return the new page; a thrown error leaves the caller's document
value untouched, which the pure embedding renders by returning
`Except.error` without any partial result. -/
def applyPatch (page : Page) (patch : Patch) : Except String Page :=
  match applyOps page.blocks patch.ops with
  | .ok bs => .ok ⟨page.id, page.title, bs⟩
  | .error e => .error e

mutual

/-- The `walk` closure of source `isPatchInSelectedScope` (server module):
traverse the whole tree; whenever a block's id is selected, add its whole
descendant-id set to the allowed set; always keep descending into columns.
The JS `Set` is modelled as a list read only through membership. -/
def walkAllowed (blocks : List Block) (sel : List String) : List String :=
  match blocks with
  | [] => []
  | b :: rest =>
    (if sel.contains b.id then collectDescendantIds b else []) ++
      (match b with
       | .columns _ _ cols => walkAllowedColumns cols sel
       | _ => []) ++
      walkAllowed rest sel

/-- Column-list part of the allowed-set walk. -/
def walkAllowedColumns (cols : List Column) (sel : List String) : List String :=
  match cols with
  | [] => []
  | .mk _ bs :: rest => walkAllowed bs sel ++ walkAllowedColumns rest sel

end

/-- Source `isPatchInSelectedScope`: build the allowed set; an empty allowed
set rejects every patch; otherwise every op's target identifier must be a
member. -/
def isPatchInSelectedScope (patch : Patch) (page : Page) (selectedBlockIds : List String) : Bool :=
  let allowed := walkAllowed page.blocks selectedBlockIds
  if allowed.isEmpty then false
  else patch.ops.all (fun op => allowed.contains op.targetId)

mutual

/-- Specification-side predicate: the block `b` occurs as a node somewhere in
the list, at any nesting depth. -/
inductive OccursInList : Block → List Block → Prop where
  | head (b : Block) (rest : List Block) : OccursInList b (b :: rest)
  | tail (b c : Block) (rest : List Block) :
      OccursInList b rest → OccursInList b (c :: rest)
  | inColumns (b : Block) (ci : String) (gap : Option Nat) (cols : List Column)
      (rest : List Block) :
      OccursInColumns b cols → OccursInList b (Block.columns ci gap cols :: rest)

/-- Occurrence inside a column list. -/
inductive OccursInColumns : Block → List Column → Prop where
  | inColumn (b : Block) (ci : String) (bs : List Block) (rest : List Column) :
      OccursInList b bs → OccursInColumns b (Column.mk ci bs :: rest)
  | laterColumn (b : Block) (c : Column) (rest : List Column) :
      OccursInColumns b rest → OccursInColumns b (c :: rest)

end

/-! Server-side state: the page cache, the pages persisted on disk, and the
per-page undo stacks (`pageCache`, the files under `PAGES_ROOT`, and
`historyStackByPage` in the server module). String-keyed maps are modelled
as association lists. -/

/-- Lookup in a string-keyed association list (JS `Map.get`). -/
def lookupAssoc {α : Type} : List (String × α) → String → Option α
  | [], _ => none
  | (k0, v0) :: rest, k => if k0 = k then some v0 else lookupAssoc rest k

/-- Update in a string-keyed association list (JS `Map.set`). -/
def setAssoc {α : Type} : List (String × α) → String → α → List (String × α)
  | [], k, v => [(k, v)]
  | (k0, v0) :: rest, k, v => if k0 = k then (k, v) :: rest else (k0, v0) :: setAssoc rest k v

/-- The mutable server state touched by the patch and undo endpoints. -/
structure ServerState where
  pageCache : List (String × Page)
  pageFiles : List (String × Page)
  historyStackByPage : List (String × List Page)

/-- Source constant `MAX_HISTORY`. -/
def MAX_HISTORY : Nat := 20

/-- Source `pushHistory`: append a structural clone of the page to the
page's stack (clones are value copies in the pure model), dropping the
oldest entry (`shift`) when the bound is exceeded. -/
def pushHistory (st : ServerState) (pageId : String) (page : Page) : ServerState :=
  let stack := (lookupAssoc st.historyStackByPage pageId).getD []
  let stack1 := stack ++ [page]
  let stack2 := if MAX_HISTORY < stack1.length then stack1.drop 1 else stack1
  ⟨st.pageCache, st.pageFiles, setAssoc st.historyStackByPage pageId stack2⟩

/-- Source `savePage`: set the in-memory cache, then write the file; a
failing disk write (modelled by the `writeFails` flag) throws after the
cache was already set, so the cache update survives while the file does not.
The returned Bool is true when the write succeeded. -/
def savePage (st : ServerState) (pageId : String) (page : Page) (writeFails : Bool) :
    ServerState × Bool :=
  let cached := setAssoc st.pageCache pageId page
  if writeFails then (⟨cached, st.pageFiles, st.historyStackByPage⟩, false)
  else (⟨cached, setAssoc st.pageFiles pageId page, st.historyStackByPage⟩, true)

/-- An endpoint response: `ok` with the resulting page, or the error payload
of a 400 response / caught exception. -/
inductive ApiResult where
  | ok (page : Page) : ApiResult
  | err (msg : String) : ApiResult

/-- The tail of the source `/api/patch/:pageId` handler, from the validated
patch onward: scope check, `applyPatch`, `pushHistory` of the pre-mutation
page, `savePage` of the new page; any throw is caught and returned as an
error response with whatever state changes had already happened. `page` is
the document the handler loaded for `pageId`. -/
def handleApplyPatch (st : ServerState) (pageId : String) (page : Page) (patch : Patch)
    (selectedBlockIds : List String) (writeFails : Bool) : ServerState × ApiResult :=
  if isPatchInSelectedScope patch page selectedBlockIds then
    match applyPatch page patch with
    | .error e => (st, .err e)
    | .ok newPage =>
      let st1 := pushHistory st pageId page
      match savePage st1 pageId newPage writeFails with
      | (st2, true) => (st2, .ok newPage)
      | (st2, false) => (st2, .err "Failed to apply patch")
  else (st, .err "Patch target out of selected scope")

/-- The source `/api/undo/:pageId` handler: pop the page's stack (JS `pop`
takes the last element), store the popped stack back, answer with the
"Nothing to undo" payload when the stack was empty, otherwise save the
popped page (disk write assumed to succeed here). -/
def handleUndo (st : ServerState) (pageId : String) : ServerState × ApiResult :=
  let stack := (lookupAssoc st.historyStackByPage pageId).getD []
  match stack.getLast? with
  | none =>
    (⟨st.pageCache, st.pageFiles, setAssoc st.historyStackByPage pageId []⟩,
     .err "Nothing to undo")
  | some prev =>
    let st1 : ServerState :=
      ⟨st.pageCache, st.pageFiles, setAssoc st.historyStackByPage pageId stack.dropLast⟩
    ((savePage st1 pageId prev false).1, .ok prev)

/-! Object-identity model for the deep-copy behaviour of `pushHistory`:
page objects live in a heap addressed by references, `structuredClone`
allocates a fresh cell holding a copy of the current value, and in-place
mutation overwrites one cell. This captures what the pure value model
cannot: whether a history entry can alias the live page object. -/

/-- A heap of page objects, the reference held by the live handler code, and
the undo stack as references into the heap. -/
structure HeapState where
  heap : List Page
  liveRef : Nat
  histRefs : List Nat

/-- Source `pushHistory`'s `stack.push(structuredClone(page))` in the
object-identity model: allocate a fresh cell with a copy of the live page's
current value and push the fresh reference. -/
def pushHistoryHeap (h : HeapState) : HeapState :=
  ⟨h.heap ++ [h.heap.getD h.liveRef ⟨"", "", []⟩], h.liveRef, h.histRefs ++ [h.heap.length]⟩

/-- In-place mutation of one page object (the live page, or any other stored
document). -/
def writeRef (h : HeapState) (r : Nat) (v : Page) : HeapState :=
  ⟨h.heap.set r v, h.liveRef, h.histRefs⟩

/-! Provider normalizer (the `normalizeOpName` / `normalizePatchLike` pair of
the server module). Raw provider output is duck-typed JSON; the embedding
gives the raw op a field for every property the normalizer consults, each
optional. Numeric JSON values are modelled as integers. -/

/-- Insert `_` between `[a-z0-9]` and `[A-Z]` pairs — the camelCase-splitting
first `replace` of `normalizeOpName` (the pattern cannot produce overlapping
matches, so a pairwise scan is exact). -/
def camelSplit : List Char → List Char
  | [] => []
  | [c] => [c]
  | a :: b :: rest =>
    if isAsciiLowerNum a && isAsciiUpper b then a :: '_' :: camelSplit (b :: rest)
    else a :: camelSplit (b :: rest)

/-- Collapse adjacent underscores, so that mapping every non-`[a-z0-9]`
character to `_` then squeezing equals the replace of `[^a-z0-9]+` runs by a
single `_`. -/
def squeezeUnderscores : List Char → List Char
  | [] => []
  | [c] => [c]
  | a :: b :: rest =>
    if a = '_' && b = '_' then squeezeUnderscores (b :: rest)
    else a :: squeezeUnderscores (b :: rest)

/-- The canonicalization pipeline applied to the trimmed token in source
`normalizeOpName`: camel split, lower-case, non-alphanumeric runs to `_`,
strip edge underscores. -/
def tokenPipeline (raw : String) : String :=
  let s1 := camelSplit raw.data
  let s2 := s1.map Char.toLower
  let s3 := s2.map (fun c => if isAsciiLowerNum c then c else '_')
  let s4 := squeezeUnderscores s3
  let s5 := ((s4.dropWhile (fun c => c == '_')).reverse.dropWhile (fun c => c == '_')).reverse
  String.mk s5

/-- The canonical form a token is reduced to before the synonym table is
consulted. -/
def canonicalToken (value : String) : String :=
  tokenPipeline (jsTrim value)

/-- Every token the synonym table of source `normalizeOpName` recognizes. -/
def recognizedTokens : List String :=
  ["update_content", "update", "update_text", "updatecontent", "edit",
   "replace_block", "replace", "replaceblock",
   "insert_after", "insert", "append_after", "insertafter",
   "delete_block", "delete", "remove", "deleteblock"]

/-- Source `normalizeOpName` (server module, provider path): trim, return
`""` for an empty token, canonicalize, map synonyms to the four canonical op
names, and otherwise return the canonicalized token. -/
def normalizeOpName (value : String) : String :=
  let raw := jsTrim value
  if raw = "" then ""
  else
    let normalized := tokenPipeline raw
    if normalized = "update_content" || normalized = "update" || normalized = "update_text" ||
        normalized = "updatecontent" || normalized = "edit" then "update_content"
    else if normalized = "replace_block" || normalized = "replace" ||
        normalized = "replaceblock" then "replace_block"
    else if normalized = "insert_after" || normalized = "insert" ||
        normalized = "append_after" || normalized = "insertafter" then "insert_after"
    else if normalized = "delete_block" || normalized = "delete" || normalized = "remove" ||
        normalized = "deleteblock" then "delete_block"
    else normalized

/-- A raw style object; the kebab-case JSON keys `font-size`, `font-weight`
and `text-align` are the fields suffixed `Kebab`. -/
structure RawStyle where
  color : Option String
  textColor : Option String
  fontSize : Option String
  fontSizeKebab : Option String
  sizeAttr : Option String
  fontWeight : Option String
  fontWeightKebab : Option String
  weight : Option String
  textAlign : Option String
  textAlignKebab : Option String
  align : Option String
deriving DecidableEq

/-- A raw `target` sub-object, with the fields the normalizer consults. -/
structure RawTarget where
  id : Option String
  blockId : Option String
  afterId : Option String
  text : Option String
  content : Option String
deriving DecidableEq

/-- A raw nested block payload (also the shape the normalizer synthesizes
into the `block` field). -/
structure RawBlock where
  id : Option String
  type : Option String
  level : Option Int
  text : Option String
  src : Option String
  alt : Option String
  caption : Option String
  widthPercent : Option Int
  title : Option String
  height : Option Int
  option : Option (List (String × String))
deriving DecidableEq

/-- A raw op as the normalizer sees it: one optional field per property the
source reads. The JSON field `value` is read by the source both with a
string guard and with an object guard; the model splits it into `value` /
`valueObj` (at most one is populated for any actual JSON input). -/
structure RawOp where
  op : Option String
  type : Option String
  action : Option String
  operation : Option String
  id : Option String
  blockId : Option String
  block_id : Option String
  targetId : Option String
  target_id : Option String
  content : Option String
  text : Option String
  value : Option String
  valueObj : Option RawBlock
  newText : Option String
  afterId : Option String
  after_id : Option String
  after : Option String
  afterBlockId : Option String
  anchorId : Option String
  anchor_id : Option String
  textStyle : Option RawStyle
  style : Option RawStyle
  target : Option RawTarget
  block : Option RawBlock
  newBlock : Option RawBlock
  new_block : Option RawBlock
  payload : Option RawBlock
  data : Option RawBlock
  blockType : Option String
  block_type : Option String
  newType : Option String
  new_type : Option String
  newId : Option String
  new_id : Option String
  insertId : Option String
  insert_id : Option String
  title : Option String
  height : Option Int
  level : Option Int
  src : Option String
  alt : Option String
  caption : Option String
  widthPercent : Option Int
  width : Option Int
  size : Option Int
  option : Option (List (String × String))
  chartOption : Option (List (String × String))
  chart_option : Option (List (String × String))
  echartsOption : Option (List (String × String))
  echarts_option : Option (List (String × String))
  chart : Option (List (String × String))
deriving DecidableEq

/-- A raw op whose every field is absent. -/
def emptyRawOp : RawOp :=
  ⟨none, none, none, none, none, none, none, none, none, none, none, none, none, none,
   none, none, none, none, none, none, none, none, none, none, none, none, none, none,
   none, none, none, none, none, none, none, none, none, none, none, none, none, none,
   none, none, none, none, none, none, none, none, none⟩

/-- The `??` nullish chain: first present value. -/
def firstSomeO {α : Type} : List (Option α) → Option α
  | [] => none
  | some v :: _ => some v
  | none :: rest => firstSomeO rest

/-- The `readString` helper: first candidate that is a present, nonempty
(after trimming) string, returned trimmed. -/
def readStringO : List (Option String) → Option String
  | [] => none
  | some s :: rest => if jsTrim s = "" then readStringO rest else some (jsTrim s)
  | none :: rest => readStringO rest

/-- The `readPercent` helper on integer candidates: clamp into `[10, 100]`. -/
def readPercent (candidates : List (Option Int)) : Option Int :=
  match firstSomeO candidates with
  | some n => some (max 10 (min 100 n))
  | none => none

/-- The style-normalization block of `normalizePatchLike`: pick each
canonical key from its aliases, validate `textAlign`, and produce a style
only when at least one key was found. -/
def normalizeRawStyle (rawStyle : RawStyle) : Option RawStyle :=
  let color := readStringO [rawStyle.color, rawStyle.textColor]
  let fontSize := readStringO [rawStyle.fontSize, rawStyle.fontSizeKebab, rawStyle.sizeAttr]
  let fontWeight := readStringO [rawStyle.fontWeight, rawStyle.fontWeightKebab, rawStyle.weight]
  let textAlign :=
    match readStringO [rawStyle.textAlign, rawStyle.textAlignKebab, rawStyle.align] with
    | some v =>
      if v = "left" || v = "center" || v = "right" || v = "justify" then some v else none
    | none => none
  if color.isSome || fontSize.isSome || fontWeight.isSome || textAlign.isSome then
    some ⟨color, none, fontSize, none, none, fontWeight, none, none, textAlign, none, none⟩
  else none

/-- The op-name resolution of `normalizePatchLike`:
`normalizeOpName(item.op ?? item.type ?? item.action ?? item.operation)`. -/
def ncOpName (item : RawOp) : String :=
  normalizeOpName ((firstSomeO [item.op, item.type, item.action, item.operation]).getD "")

/-- The style-normalization block: `item.textStyle ?? item.style`, reshaped,
written to `next.textStyle` when it has at least one key. -/
def ncStyle (item next : RawOp) : RawOp :=
  match firstSomeO [item.textStyle, item.style] with
  | some rawStyle =>
    match normalizeRawStyle rawStyle with
    | some out => { next with textStyle := some out }
    | none => next
  | none => next

/-- The `update_content` relocation block: adopt id and content from their
alias fields. -/
def ncUpdateContent (nop : String) (item next : RawOp) : RawOp :=
  if nop = "update_content" then
    let target := item.target
    let block := item.block
    let idC := readStringO [next.id, item.blockId, item.block_id, item.targetId,
      item.target_id, target.bind RawTarget.id, target.bind RawTarget.blockId,
      block.bind RawBlock.id]
    let contentC := readStringO [next.content, item.text, item.value, item.newText,
      target.bind RawTarget.text, target.bind RawTarget.content]
    let n := match idC with | some i => { next with id := some i } | none => next
    match contentC with | some c => { n with content := some c } | none => n
  else next

/-- The `replace_block` id relocation block. -/
def ncReplaceId (nop : String) (item next : RawOp) : RawOp :=
  if nop = "replace_block" then
    match readStringO [next.id, item.blockId, item.block_id, item.targetId, item.target_id,
      item.target.bind RawTarget.id, item.block.bind RawBlock.id] with
    | some i => { next with id := some i }
    | none => next
  else next

/-- The `insert_after` afterId relocation block. -/
def ncInsertAfterId (nop : String) (item next : RawOp) : RawOp :=
  if nop = "insert_after" then
    match readStringO [next.afterId, item.after_id, item.after, item.afterBlockId,
      item.anchorId, item.anchor_id, item.target.bind RawTarget.afterId,
      item.target.bind RawTarget.id] with
    | some a => { next with afterId := some a }
    | none => next
  else next

/-- The nested-block adoption block: accept an object candidate carrying
string `type` and `id`. -/
def ncAdoptBlock (nop : String) (item next : RawOp) : RawOp :=
  if (nop = "replace_block" || nop = "insert_after") && next.block.isNone then
    match firstSomeO [item.block, item.newBlock, item.new_block, item.payload, item.data,
      item.valueObj] with
    | some nb =>
      if nb.type.isSome && nb.id.isSome then { next with block := some nb } else next
    | none => next
  else next

/-- The inline block-synthesis block: rebuild a chart / heading / paragraph /
divider / image payload from flattened fields; `now` stands in for
`Date.now()` in the fabricated chart id. -/
def ncSynthesizeBlock (now nop : String) (item next : RawOp) : RawOp :=
  if (nop = "replace_block" || nop = "insert_after") && next.block.isNone then
    let block := item.block
    let inlineType := readStringO [item.blockType, item.block_type, item.newType,
      item.new_type, item.type, block.bind RawBlock.type]
    let inlineId0 := readStringO [block.bind RawBlock.id, item.newId, item.new_id,
      item.insertId, item.insert_id, item.blockId, item.block_id,
      if nop = "replace_block" then next.id else none]
    let inlineId :=
      if inlineId0.isNone && inlineType = some "chart" then some ("chart_" ++ now)
      else inlineId0
    if inlineType = some "chart" then
      match firstSomeO [item.option, item.chartOption, item.chart_option, item.echartsOption,
        item.echarts_option, item.chart, block.bind RawBlock.option] with
      | some opt =>
        match inlineId with
        | some iid =>
          let titleC := readStringO [item.title, block.bind RawBlock.title]
          let heightC :=
            match firstSomeO [item.height, block.bind RawBlock.height] with
            | some hh => if hh = 0 then none else some hh
            | none => none
          let nb := RawBlock.mk (some iid) (some "chart") none none none none none none
                      titleC heightC (some opt)
          { next with block := some nb }
        | none => next
      | none => next
    else if inlineType = some "heading" then
      let textC := readStringO [item.text, item.content, block.bind RawBlock.text]
      match inlineId, textC with
      | some iid, some tx =>
        let lvl : Int :=
          match firstSomeO [item.level, block.bind RawBlock.level] with
          | some l => if l = 2 || l = 3 then l else 1
          | none => 1
        let nb := RawBlock.mk (some iid) (some "heading") (some lvl) (some tx) none none
                    none none none none none
        { next with block := some nb }
      | _, _ => next
    else if inlineType = some "paragraph" then
      let textC := readStringO [item.text, item.content, block.bind RawBlock.text]
      match inlineId, textC with
      | some iid, some tx =>
        let nb := RawBlock.mk (some iid) (some "paragraph") none (some tx) none none
                    none none none none none
        { next with block := some nb }
      | _, _ => next
    else if inlineType = some "divider" then
      match inlineId with
      | some iid =>
        let nb := RawBlock.mk (some iid) (some "divider") none none none none none none
                    none none none
        { next with block := some nb }
      | none => next
    else if inlineType = some "image" then
      let srcC := readStringO [item.src, block.bind RawBlock.src]
      match inlineId, srcC with
      | some iid, some sc =>
        let altC := readStringO [item.alt, block.bind RawBlock.alt]
        let capC := readStringO [item.caption, block.bind RawBlock.caption]
        let wp := readPercent [item.widthPercent, item.width, item.size,
          block.bind RawBlock.widthPercent]
        let nb := RawBlock.mk (some iid) (some "image") none none (some sc) altC capC wp
                    none none none
        { next with block := some nb }
      | _, _ => next
    else next
  else next

/-- The last-resort fallback: a replace/insert with no block payload becomes
a generic text update on whatever target id can be found. -/
def ncFallback (nop : String) (item next : RawOp) : RawOp :=
  if (nop = "replace_block" || nop = "insert_after") && next.block.isNone then
    match readStringO [next.id, next.afterId, item.id, item.afterId,
      item.target.bind RawTarget.id] with
    | some fid =>
      { next with
          op := some "update_content"
          id := some fid
          content := some ((readStringO [item.content, item.text,
            some "AI returned invalid block payload; fallback as text update."]).getD
            "AI returned invalid block payload.")
          afterId := none }
    | none => next
  else next

/-- The `delete_block` id relocation block. -/
def ncDeleteId (nop : String) (item next : RawOp) : RawOp :=
  if nop = "delete_block" then
    match readStringO [next.id, item.blockId, item.block_id, item.targetId, item.target_id,
      item.target.bind RawTarget.id, item.block.bind RawBlock.id] with
    | some i => { next with id := some i }
    | none => next
  else next

/-- One op through source `normalizePatchLike` (provider path): resolve the
op name, normalize the style object, relocate alias fields into the
canonical `id` / `content` / `afterId` slots, adopt or synthesize a nested
block payload for replace/insert, fall back to a text update when no block
payload could be built, and relocate the delete target — the source's
sequential mutations of `next`, applied in order. -/
def normalizeRawOp (now : String) (item : RawOp) : RawOp :=
  let nop := ncOpName item
  ncDeleteId nop item
    (ncFallback nop item
      (ncSynthesizeBlock now nop item
        (ncAdoptBlock nop item
          (ncInsertAfterId nop item
            (ncReplaceId nop item
              (ncUpdateContent nop item
                (ncStyle item { item with op := some nop })))))))

/-- A raw patch: the decoded provider JSON once its `ops` array is present. -/
structure RawPatch where
  ops : List RawOp

/-- Source `normalizePatchLike` on a decoded object with an `ops` array:
normalize each op. -/
def normalizePatchLike (now : String) (p : RawPatch) : RawPatch :=
  ⟨p.ops.map (normalizeRawOp now)⟩

/-- First op of a raw patch, for stating properties of one-op patches. -/
def firstOp (p : RawPatch) : Option RawOp :=
  p.ops.head?


/-! Helper lemmas relating the searches and edits over the block tree. -/

theorem collectDescendantIds_self (b : Block) : b.id ∈ collectDescendantIds b := by
  cases b <;> simp [collectDescendantIds, Block.id]

mutual

theorem editBlocks_notFound : ∀ (blocks : List Block) (id : String) (k : EditKind),
    id ∉ allIds blocks → editBlocks blocks id k = none
  | [], id, k, _ => by simp [editBlocks]
  | b :: rest, id, k, h => by
    have h1 : id ∉ collectDescendantIds b := fun hm => h (by simp [allIds]; exact Or.inl hm)
    have h2 : id ∉ allIds rest := fun hm => h (by simp [allIds]; exact Or.inr hm)
    have hr := editBlocks_notFound rest id k h2
    cases b with
    | columns ci gap cols =>
      simp only [collectDescendantIds, List.mem_cons] at h1
      push_neg at h1
      have hc := editColumns_notFound cols id k h1.2
      have hne : ¬ ci = id := fun hcc => h1.1 hcc.symm
      simp [editBlocks, Block.id, hne, hc, hr]
    | heading i lv t st =>
      simp only [collectDescendantIds, List.mem_singleton] at h1
      have hne : ¬ i = id := fun hcc => h1 (by rw [hcc])
      simp [editBlocks, Block.id, hne, hr]
    | paragraph i t st =>
      simp only [collectDescendantIds, List.mem_singleton] at h1
      have hne : ¬ i = id := fun hcc => h1 (by rw [hcc])
      simp [editBlocks, Block.id, hne, hr]
    | divider i =>
      simp only [collectDescendantIds, List.mem_singleton] at h1
      have hne : ¬ i = id := fun hcc => h1 (by rw [hcc])
      simp [editBlocks, Block.id, hne, hr]
    | image i src alt cap w =>
      simp only [collectDescendantIds, List.mem_singleton] at h1
      have hne : ¬ i = id := fun hcc => h1 (by rw [hcc])
      simp [editBlocks, Block.id, hne, hr]
    | chart i ti ht o =>
      simp only [collectDescendantIds, List.mem_singleton] at h1
      have hne : ¬ i = id := fun hcc => h1 (by rw [hcc])
      simp [editBlocks, Block.id, hne, hr]
    | rich i items =>
      simp only [collectDescendantIds, List.mem_singleton] at h1
      have hne : ¬ i = id := fun hcc => h1 (by rw [hcc])
      simp [editBlocks, Block.id, hne, hr]

theorem editColumns_notFound : ∀ (cols : List Column) (id : String) (k : EditKind),
    id ∉ columnsDescendantIds cols → editColumns cols id k = none
  | [], id, k, _ => by simp [editColumns]
  | .mk ci bs :: rest, id, k, h => by
    have h1 : id ∉ allIds bs := fun hm => h (by simp [columnsDescendantIds]; exact Or.inl hm)
    have h2 : id ∉ columnsDescendantIds rest := fun hm =>
      h (by simp [columnsDescendantIds]; exact Or.inr hm)
    have hb := editBlocks_notFound bs id k h1
    have hr := editColumns_notFound rest id k h2
    simp [editColumns, hb, hr]

end

mutual

theorem findBlock_none_editBlocks : ∀ (blocks : List Block) (id : String) (k : EditKind),
    findBlock blocks id = none → editBlocks blocks id k = none
  | [], id, k, _ => by simp [editBlocks]
  | b :: rest, id, k, h => by
    cases b with
    | columns ci gap cols =>
      have hne : ¬ ci = id := by
        intro hcc
        simp [findBlock, Block.id, hcc] at h
      have hcols : findBlockInColumns cols id = none := by
        cases hfc : findBlockInColumns cols id with
        | some r => simp [findBlock, Block.id, hne, hfc] at h
        | none => rfl
      have hrest : findBlock rest id = none := by
        simpa [findBlock, Block.id, hne, hcols] using h
      have hc := findColumns_none_editColumns cols id k hcols
      have hr := findBlock_none_editBlocks rest id k hrest
      simp [editBlocks, Block.id, hne, hc, hr]
    | heading i lv t st =>
      have hne : ¬ i = id := by
        intro hcc
        simp [findBlock, Block.id, hcc] at h
      have hrest : findBlock rest id = none := by
        simpa [findBlock, Block.id, hne] using h
      have hr := findBlock_none_editBlocks rest id k hrest
      simp [editBlocks, Block.id, hne, hr]
    | paragraph i t st =>
      have hne : ¬ i = id := by
        intro hcc
        simp [findBlock, Block.id, hcc] at h
      have hrest : findBlock rest id = none := by
        simpa [findBlock, Block.id, hne] using h
      have hr := findBlock_none_editBlocks rest id k hrest
      simp [editBlocks, Block.id, hne, hr]
    | divider i =>
      have hne : ¬ i = id := by
        intro hcc
        simp [findBlock, Block.id, hcc] at h
      have hrest : findBlock rest id = none := by
        simpa [findBlock, Block.id, hne] using h
      have hr := findBlock_none_editBlocks rest id k hrest
      simp [editBlocks, Block.id, hne, hr]
    | image i src alt cap w =>
      have hne : ¬ i = id := by
        intro hcc
        simp [findBlock, Block.id, hcc] at h
      have hrest : findBlock rest id = none := by
        simpa [findBlock, Block.id, hne] using h
      have hr := findBlock_none_editBlocks rest id k hrest
      simp [editBlocks, Block.id, hne, hr]
    | chart i ti ht o =>
      have hne : ¬ i = id := by
        intro hcc
        simp [findBlock, Block.id, hcc] at h
      have hrest : findBlock rest id = none := by
        simpa [findBlock, Block.id, hne] using h
      have hr := findBlock_none_editBlocks rest id k hrest
      simp [editBlocks, Block.id, hne, hr]
    | rich i items =>
      have hne : ¬ i = id := by
        intro hcc
        simp [findBlock, Block.id, hcc] at h
      have hrest : findBlock rest id = none := by
        simpa [findBlock, Block.id, hne] using h
      have hr := findBlock_none_editBlocks rest id k hrest
      simp [editBlocks, Block.id, hne, hr]

theorem findColumns_none_editColumns : ∀ (cols : List Column) (id : String) (k : EditKind),
    findBlockInColumns cols id = none → editColumns cols id k = none
  | [], id, k, _ => by simp [editColumns]
  | .mk ci bs :: rest, id, k, h => by
    have hbs : findBlock bs id = none := by
      cases hfb : findBlock bs id with
      | some r => simp [findBlockInColumns, hfb] at h
      | none => rfl
    have hrest : findBlockInColumns rest id = none := by
      simpa [findBlockInColumns, hbs] using h
    have hb := findBlock_none_editBlocks bs id k hbs
    have hr := findColumns_none_editColumns rest id k hrest
    simp [editColumns, hb, hr]

end

/-- A lookup failure on any op kind produces the source's thrown
`Block id not found` error naming the op's target identifier. -/
theorem applyOp_notFound (blocks : List Block) (op : PatchOp)
    (h : findBlock blocks op.targetId = none) :
    applyOp blocks op = .error ("Block id not found: " ++ op.targetId) := by
  cases op with
  | update_content i content style =>
    have := findBlock_none_editBlocks blocks i
      (.modify (fun b => updateBlockContent b content style)) h
    simp [applyOp, PatchOp.targetId, this]
  | replace_block i nb =>
    have := findBlock_none_editBlocks blocks i (.modify (fun _ => .ok nb)) h
    simp [applyOp, PatchOp.targetId, this]
  | insert_after a nb =>
    have := findBlock_none_editBlocks blocks a (.insertAfter nb) h
    simp [applyOp, PatchOp.targetId, this]
  | delete_block i =>
    have := findBlock_none_editBlocks blocks i .delete h
    simp [applyOp, PatchOp.targetId, this]

/-- Splitting the op loop at any point: the suffix runs on the working tree
the prefix produced, and a prefix error aborts. -/
theorem applyOps_append (blocks : List Block) (l1 l2 : List PatchOp) :
    applyOps blocks (l1 ++ l2) =
      match applyOps blocks l1 with
      | .ok bs1 => applyOps bs1 l2
      | .error e => .error e := by
  induction l1 generalizing blocks with
  | nil => simp [applyOps]
  | cons op rest ih =>
    simp only [List.cons_append, applyOps]
    cases applyOp blocks op with
    | ok bs2 => simpa using ih bs2
    | error e => simp



/-- C1, as stated, is refuted by a patch whose second op targets the id of
the block the first op just inserted: the id occurs nowhere in the input
document, yet `applyPatch` succeeds (and returns the original document). -/
theorem c1_counterexample :
    applyPatch ⟨"p", "t", [Block.paragraph "a" "x" none]⟩
        (Patch.mk [PatchOp.insert_after "a" (Block.paragraph "b" "y" none),
          PatchOp.delete_block "b"]) =
      .ok ⟨"p", "t", [Block.paragraph "a" "x" none]⟩ ∧
    "b" ∉ allIds [Block.paragraph "a" "x" none] := by
  constructor
  · simp [applyPatch, applyOps, applyOp, editBlocks, editHere, Block.id]
  · simp [allIds, collectDescendantIds]

/-- C1 (amended): lookup failures are judged against the working tree at the
failing op's turn, not against the input document. For every document and
every patch, if the ops before `op` apply cleanly and `op`'s target
identifier (`id`, or `afterId` for insert_after) is not found anywhere in
the working tree they produced, `applyPatch` fails with the
`Block id not found` error naming that id; the caller's document value is
untouched (the applier only ever edits a clone, which the pure embedding
renders by returning `Except.error` with no partial result). -/
theorem c1_id_not_found_aborts (page : Page) (pre : List PatchOp) (op : PatchOp)
    (post : List PatchOp) (bs : List Block)
    (hpre : applyOps page.blocks pre = .ok bs)
    (hmiss : findBlock bs op.targetId = none) :
    applyPatch page (Patch.mk (pre ++ op :: post)) =
      .error ("Block id not found: " ++ op.targetId) := by
  have hop := applyOp_notFound bs op hmiss
  have hrun : applyOps page.blocks (pre ++ op :: post) =
      .error ("Block id not found: " ++ op.targetId) := by
    rw [applyOps_append, hpre]
    simp [applyOps, hop]
  simp [applyPatch, hrun]

/-- Witness for C1 (amended) at a concrete document and patch. -/
theorem c1_witness :
    applyOps (Page.mk "p" "t" [Block.divider "a"]).blocks [] = .ok [Block.divider "a"] ∧
    findBlock [Block.divider "a"] (PatchOp.delete_block "z").targetId = none ∧
    applyPatch ⟨"p", "t", [Block.divider "a"]⟩
        (Patch.mk ([] ++ PatchOp.delete_block "z" :: [])) =
      .error ("Block id not found: " ++ (PatchOp.delete_block "z").targetId) := by
  refine ⟨rfl, ?_, ?_⟩
  · simp [findBlock, Block.id, PatchOp.targetId]
  · exact c1_id_not_found_aborts ⟨"p", "t", [Block.divider "a"]⟩ [] (PatchOp.delete_block "z")
      [] [Block.divider "a"] rfl (by simp [findBlock, Block.id, PatchOp.targetId])



mutual

theorem findBlock_some_id : ∀ (blocks : List Block) (id : String) (b : Block),
    findBlock blocks id = some b → b.id = id
  | [], id, b, h => by simp [findBlock] at h
  | c :: rest, id, b, h => by
    cases c with
    | columns ci gap cols =>
      by_cases hid : ci = id
      · have hb : Block.columns ci gap cols = b := by
          simp only [findBlock] at h
          simpa [Block.id, hid] using h
        rw [← hb]
        simpa [Block.id] using hid
      · cases hfc : findBlockInColumns cols id with
        | some r =>
          have hb : r = b := by
            simp only [findBlock] at h
            simpa [Block.id, hid, hfc] using h
          rw [← hb]
          exact findColumns_some_id cols id r hfc
        | none =>
          have hrest : findBlock rest id = some b := by
            simp only [findBlock] at h
            simpa [Block.id, hid, hfc] using h
          exact findBlock_some_id rest id b hrest
    | heading i lv t st =>
      by_cases hid : i = id
      · have hb : Block.heading i lv t st = b := by
          simp only [findBlock] at h
          simpa [Block.id, hid] using h
        rw [← hb]
        simpa [Block.id] using hid
      · have hrest : findBlock rest id = some b := by
          simp only [findBlock] at h
          simpa [Block.id, hid] using h
        exact findBlock_some_id rest id b hrest
    | paragraph i t st =>
      by_cases hid : i = id
      · have hb : Block.paragraph i t st = b := by
          simp only [findBlock] at h
          simpa [Block.id, hid] using h
        rw [← hb]
        simpa [Block.id] using hid
      · have hrest : findBlock rest id = some b := by
          simp only [findBlock] at h
          simpa [Block.id, hid] using h
        exact findBlock_some_id rest id b hrest
    | divider i =>
      by_cases hid : i = id
      · have hb : Block.divider i = b := by
          simp only [findBlock] at h
          simpa [Block.id, hid] using h
        rw [← hb]
        simpa [Block.id] using hid
      · have hrest : findBlock rest id = some b := by
          simp only [findBlock] at h
          simpa [Block.id, hid] using h
        exact findBlock_some_id rest id b hrest
    | image i src alt cap w =>
      by_cases hid : i = id
      · have hb : Block.image i src alt cap w = b := by
          simp only [findBlock] at h
          simpa [Block.id, hid] using h
        rw [← hb]
        simpa [Block.id] using hid
      · have hrest : findBlock rest id = some b := by
          simp only [findBlock] at h
          simpa [Block.id, hid] using h
        exact findBlock_some_id rest id b hrest
    | chart i ti ht o =>
      by_cases hid : i = id
      · have hb : Block.chart i ti ht o = b := by
          simp only [findBlock] at h
          simpa [Block.id, hid] using h
        rw [← hb]
        simpa [Block.id] using hid
      · have hrest : findBlock rest id = some b := by
          simp only [findBlock] at h
          simpa [Block.id, hid] using h
        exact findBlock_some_id rest id b hrest
    | rich i items =>
      by_cases hid : i = id
      · have hb : Block.rich i items = b := by
          simp only [findBlock] at h
          simpa [Block.id, hid] using h
        rw [← hb]
        simpa [Block.id] using hid
      · have hrest : findBlock rest id = some b := by
          simp only [findBlock] at h
          simpa [Block.id, hid] using h
        exact findBlock_some_id rest id b hrest

theorem findColumns_some_id : ∀ (cols : List Column) (id : String) (b : Block),
    findBlockInColumns cols id = some b → b.id = id
  | [], id, b, h => by simp [findBlockInColumns] at h
  | .mk ci bs :: rest, id, b, h => by
    cases hfb : findBlock bs id with
    | some r =>
      have hb : r = b := by
        simp only [findBlockInColumns] at h
        simpa [hfb] using h
      rw [← hb]
      exact findBlock_some_id bs id r hfb
    | none =>
      have hrest : findBlockInColumns rest id = some b := by
        simp only [findBlockInColumns] at h
        simpa [hfb] using h
      exact findColumns_some_id rest id b hrest

end

mutual

theorem editBlocks_modify_error : ∀ (blocks : List Block) (id : String)
    (f : Block → Except String Block) (b : Block) (e : String),
    findBlock blocks id = some b → f b = .error e →
    editBlocks blocks id (.modify f) = some (.error e)
  | [], id, f, b, e, h, _ => by simp [findBlock] at h
  | c :: rest, id, f, b, e, h, hf => by
    cases c with
    | columns ci gap cols =>
      by_cases hid : ci = id
      · have hb : Block.columns ci gap cols = b := by
          simp only [findBlock] at h
          simpa [Block.id, hid] using h
        have hf2 : f (Block.columns ci gap cols) = .error e := by
          rw [hb]
          exact hf
        subst hid
        simp [editBlocks, Block.id, editHere, hf2]
      · cases hfc : findBlockInColumns cols id with
        | some r =>
          have hb : r = b := by
            simp only [findBlock] at h
            simpa [Block.id, hid, hfc] using h
          have hf2 : f r = .error e := by
            rw [hb]
            exact hf
          have hc := editColumns_modify_error cols id f r e hfc hf2
          simp [editBlocks, Block.id, hid, hc]
        | none =>
          have hrest : findBlock rest id = some b := by
            simp only [findBlock] at h
            simpa [Block.id, hid, hfc] using h
          have hr := editBlocks_modify_error rest id f b e hrest hf
          have hcol := findColumns_none_editColumns cols id (.modify f) hfc
          simp [editBlocks, Block.id, hid, hcol, hr]
    | heading i lv t st =>
      by_cases hid : i = id
      · have hb : Block.heading i lv t st = b := by
          simp only [findBlock] at h
          simpa [Block.id, hid] using h
        have hf2 : f (Block.heading i lv t st) = .error e := by
          rw [hb]
          exact hf
        subst hid
        simp [editBlocks, Block.id, editHere, hf2]
      · have hrest : findBlock rest id = some b := by
          simp only [findBlock] at h
          simpa [Block.id, hid] using h
        have hr := editBlocks_modify_error rest id f b e hrest hf
        simp [editBlocks, Block.id, hid, hr]
    | paragraph i t st =>
      by_cases hid : i = id
      · have hb : Block.paragraph i t st = b := by
          simp only [findBlock] at h
          simpa [Block.id, hid] using h
        have hf2 : f (Block.paragraph i t st) = .error e := by
          rw [hb]
          exact hf
        subst hid
        simp [editBlocks, Block.id, editHere, hf2]
      · have hrest : findBlock rest id = some b := by
          simp only [findBlock] at h
          simpa [Block.id, hid] using h
        have hr := editBlocks_modify_error rest id f b e hrest hf
        simp [editBlocks, Block.id, hid, hr]
    | divider i =>
      by_cases hid : i = id
      · have hb : Block.divider i = b := by
          simp only [findBlock] at h
          simpa [Block.id, hid] using h
        have hf2 : f (Block.divider i) = .error e := by
          rw [hb]
          exact hf
        subst hid
        simp [editBlocks, Block.id, editHere, hf2]
      · have hrest : findBlock rest id = some b := by
          simp only [findBlock] at h
          simpa [Block.id, hid] using h
        have hr := editBlocks_modify_error rest id f b e hrest hf
        simp [editBlocks, Block.id, hid, hr]
    | image i src alt cap w =>
      by_cases hid : i = id
      · have hb : Block.image i src alt cap w = b := by
          simp only [findBlock] at h
          simpa [Block.id, hid] using h
        have hf2 : f (Block.image i src alt cap w) = .error e := by
          rw [hb]
          exact hf
        subst hid
        simp [editBlocks, Block.id, editHere, hf2]
      · have hrest : findBlock rest id = some b := by
          simp only [findBlock] at h
          simpa [Block.id, hid] using h
        have hr := editBlocks_modify_error rest id f b e hrest hf
        simp [editBlocks, Block.id, hid, hr]
    | chart i ti ht o =>
      by_cases hid : i = id
      · have hb : Block.chart i ti ht o = b := by
          simp only [findBlock] at h
          simpa [Block.id, hid] using h
        have hf2 : f (Block.chart i ti ht o) = .error e := by
          rw [hb]
          exact hf
        subst hid
        simp [editBlocks, Block.id, editHere, hf2]
      · have hrest : findBlock rest id = some b := by
          simp only [findBlock] at h
          simpa [Block.id, hid] using h
        have hr := editBlocks_modify_error rest id f b e hrest hf
        simp [editBlocks, Block.id, hid, hr]
    | rich i items =>
      by_cases hid : i = id
      · have hb : Block.rich i items = b := by
          simp only [findBlock] at h
          simpa [Block.id, hid] using h
        have hf2 : f (Block.rich i items) = .error e := by
          rw [hb]
          exact hf
        subst hid
        simp [editBlocks, Block.id, editHere, hf2]
      · have hrest : findBlock rest id = some b := by
          simp only [findBlock] at h
          simpa [Block.id, hid] using h
        have hr := editBlocks_modify_error rest id f b e hrest hf
        simp [editBlocks, Block.id, hid, hr]

theorem editColumns_modify_error : ∀ (cols : List Column) (id : String)
    (f : Block → Except String Block) (b : Block) (e : String),
    findBlockInColumns cols id = some b → f b = .error e →
    editColumns cols id (.modify f) = some (.error e)
  | [], id, f, b, e, h, _ => by simp [findBlockInColumns] at h
  | .mk ci bs :: rest, id, f, b, e, h, hf => by
    cases hfb : findBlock bs id with
    | some r =>
      have hb : r = b := by
        simp only [findBlockInColumns] at h
        simpa [hfb] using h
      have hf2 : f r = .error e := by
        rw [hb]
        exact hf
      have hin := editBlocks_modify_error bs id f r e hfb hf2
      simp [editColumns, hin]
    | none =>
      have hrest : findBlockInColumns rest id = some b := by
        simp only [findBlockInColumns] at h
        simpa [hfb] using h
      have hr := editColumns_modify_error rest id f b e hrest hf
      have hbs := findBlock_none_editBlocks bs id (.modify f) hfb
      simp [editColumns, hbs, hr]

end

/-- Content updates on a divider, chart or columns block throw the
unsupported-operation error, whose text names the block id (and only the
id). -/
theorem updateBlockContent_unsupported (b : Block) (content : String) (style : Option TextStyle)
    (h : b.kindName = "divider" ∨ b.kindName = "chart" ∨ b.kindName = "columns") :
    updateBlockContent b content style =
      .error ("Block \"" ++ b.id ++ "\" does not support content updates") := by
  cases b with
  | heading i lv t st => simp [Block.kindName] at h
  | paragraph i t st => simp [Block.kindName] at h
  | image i src alt cap w => simp [Block.kindName] at h
  | rich i items => simp [Block.kindName] at h
  | divider i => simp [updateBlockContent, Block.id]
  | chart i ti ht o => simp [updateBlockContent, Block.id]
  | columns i g cols => simp [updateBlockContent, Block.id]


/-- C6, as stated, is refuted on the error text: the thrown
unsupported-operation error names the node id but not its kind — for a
divider target the message contains no occurrence of "divider". -/
theorem c6_counterexample :
    applyPatch ⟨"p", "t", [Block.divider "d1"]⟩
        (Patch.mk [PatchOp.update_content "d1" "x" none]) =
      .error "Block \"d1\" does not support content updates" ∧
    containsChars ("Block \"d1\" does not support content updates").data ("divider".data)
      = false := by
  constructor
  · simp [applyPatch, applyOps, applyOp, editBlocks, editHere, updateBlockContent, Block.id]
  · decide

/-- C6 (amended): for every `update_content` op whose located target node is
of a kind that does not support content update (divider, chart, or columns),
`applyPatch` fails with the unsupported-operation error naming the node id
(the kind is not part of the message), and the original document is left
untouched (the pure embedding returns `Except.error` with no partial
result). -/
theorem c6_unsupported_update_fails (page : Page) (i content : String)
    (style : Option TextStyle) (rest : List PatchOp) (b : Block)
    (hfind : findBlock page.blocks i = some b)
    (hkind : b.kindName = "divider" ∨ b.kindName = "chart" ∨ b.kindName = "columns") :
    applyPatch page (Patch.mk (PatchOp.update_content i content style :: rest)) =
      .error ("Block \"" ++ i ++ "\" does not support content updates") := by
  have hbid : b.id = i := findBlock_some_id page.blocks i b hfind
  have hupd : updateBlockContent b content style =
      .error ("Block \"" ++ i ++ "\" does not support content updates") := by
    rw [← hbid]
    exact updateBlockContent_unsupported b content style hkind
  have hedit := editBlocks_modify_error page.blocks i
    (fun blk => updateBlockContent blk content style) b
    ("Block \"" ++ i ++ "\" does not support content updates") hfind hupd
  have hop : applyOp page.blocks (PatchOp.update_content i content style) =
      .error ("Block \"" ++ i ++ "\" does not support content updates") := by
    simp [applyOp, hedit]
  simp [applyPatch, applyOps, hop]

/-- Witness for C6 (amended) at a concrete chart target. -/
theorem c6_witness :
    findBlock [Block.chart "c1" none none []] "c1" = some (Block.chart "c1" none none []) ∧
    ((Block.chart "c1" none none []).kindName = "divider" ∨
      (Block.chart "c1" none none []).kindName = "chart" ∨
      (Block.chart "c1" none none []).kindName = "columns") ∧
    applyPatch ⟨"p", "t", [Block.chart "c1" none none []]⟩
        (Patch.mk (PatchOp.update_content "c1" "hello" none :: [])) =
      .error ("Block \"" ++ "c1" ++ "\" does not support content updates") := by
  refine ⟨?_, ?_, ?_⟩
  · simp [findBlock, Block.id]
  · simp [Block.kindName]
  · exact c6_unsupported_update_fails ⟨"p", "t", [Block.chart "c1" none none []]⟩ "c1" "hello"
      none [] (Block.chart "c1" none none []) (by simp [findBlock, Block.id])
      (by simp [Block.kindName])


/-- Unfolding `editBlocks` at a matching head block. -/
theorem editBlocks_cons_hit (b : Block) (rest : List Block) (id : String) (k : EditKind)
    (h : b.id = id) : editBlocks (b :: rest) id k = some (editHere k b rest) := by
  cases b with
  | heading i lv t st =>
    simp only [Block.id] at h
    simp [editBlocks, Block.id, h]
  | paragraph i t st =>
    simp only [Block.id] at h
    simp [editBlocks, Block.id, h]
  | divider i =>
    simp only [Block.id] at h
    simp [editBlocks, Block.id, h]
  | image i src alt cap w =>
    simp only [Block.id] at h
    simp [editBlocks, Block.id, h]
  | chart i ti ht o =>
    simp only [Block.id] at h
    simp [editBlocks, Block.id, h]
  | rich i items =>
    simp only [Block.id] at h
    simp [editBlocks, Block.id, h]
  | columns i g cols =>
    simp only [Block.id] at h
    simp [editBlocks, Block.id, h]

/-- Unfolding `editBlocks` at a non-matching, non-columns head block. -/
theorem editBlocks_cons_skip (b : Block) (rest : List Block) (id : String) (k : EditKind)
    (hne : ¬ b.id = id) (hnc : ¬ b.kindName = "columns") :
    editBlocks (b :: rest) id k =
      match editBlocks rest id k with
      | some (.ok rest2) => some (.ok (b :: rest2))
      | r => r := by
  cases b with
  | columns i g cols => simp [Block.kindName] at hnc
  | heading i lv t st =>
    have hne2 : ¬ i = id := by simpa [Block.id] using hne
    simp [editBlocks, Block.id, hne2]
  | paragraph i t st =>
    have hne2 : ¬ i = id := by simpa [Block.id] using hne
    simp [editBlocks, Block.id, hne2]
  | divider i =>
    have hne2 : ¬ i = id := by simpa [Block.id] using hne
    simp [editBlocks, Block.id, hne2]
  | image i src alt cap w =>
    have hne2 : ¬ i = id := by simpa [Block.id] using hne
    simp [editBlocks, Block.id, hne2]
  | chart i ti ht o =>
    have hne2 : ¬ i = id := by simpa [Block.id] using hne
    simp [editBlocks, Block.id, hne2]
  | rich i items =>
    have hne2 : ¬ i = id := by simpa [Block.id] using hne
    simp [editBlocks, Block.id, hne2]

/-- Unfolding `editBlocks` at a non-matching columns head block. -/
theorem editBlocks_cons_columns (ci : String) (gap : Option Nat) (cols : List Column)
    (rest : List Block) (id : String) (k : EditKind) (hne : ¬ ci = id) :
    editBlocks (Block.columns ci gap cols :: rest) id k =
      match editColumns cols id k with
      | some (.ok cols2) => some (.ok (Block.columns ci gap cols2 :: rest))
      | some (.error e) => some (.error e)
      | none =>
        match editBlocks rest id k with
        | some (.ok rest2) => some (.ok (Block.columns ci gap cols :: rest2))
        | r => r := by
  simp [editBlocks, Block.id, hne]


mutual

theorem insertDelete_blocks : ∀ (blocks : List Block) (X : String) (nb : Block),
    X ∈ allIds blocks → nb.id ∉ allIds blocks →
    ∃ blocks2, editBlocks blocks X (.insertAfter nb) = some (.ok blocks2) ∧
      editBlocks blocks2 nb.id .delete = some (.ok blocks)
  | [], X, nb, hX, _ => by simp [allIds] at hX
  | b :: rest, X, nb, hX, hnb => by
    have hnb1 : nb.id ∉ collectDescendantIds b := fun hm =>
      hnb (by simp [allIds]; exact Or.inl hm)
    have hnb2 : nb.id ∉ allIds rest := fun hm => hnb (by simp [allIds]; exact Or.inr hm)
    cases b with
    | columns ci gap cols =>
      have hnbci : ¬ nb.id = ci := fun he =>
        hnb1 (by simp [collectDescendantIds]; exact Or.inl he)
      have hnbcols : nb.id ∉ columnsDescendantIds cols := fun hm =>
        hnb1 (by simp [collectDescendantIds]; exact Or.inr hm)
      by_cases hid : ci = X
      · refine ⟨Block.columns ci gap cols :: nb :: rest, ?_, ?_⟩
        · rw [editBlocks_cons_hit (Block.columns ci gap cols) rest X (.insertAfter nb) hid]
          simp [editHere]
        · rw [editBlocks_cons_columns ci gap cols (nb :: rest) nb.id .delete
            (fun he => hnbci he.symm)]
          rw [editColumns_notFound cols nb.id .delete hnbcols]
          rw [editBlocks_cons_hit nb rest nb.id .delete rfl]
          simp [editHere]
      · by_cases hXc : X ∈ columnsDescendantIds cols
        · obtain ⟨cols2, hinsC, hdelC⟩ := insertDelete_columns cols X nb hXc hnbcols
          refine ⟨Block.columns ci gap cols2 :: rest, ?_, ?_⟩
          · rw [editBlocks_cons_columns ci gap cols rest X (.insertAfter nb) hid]
            simp [hinsC]
          · rw [editBlocks_cons_columns ci gap cols2 rest nb.id .delete
              (fun he => hnbci he.symm)]
            simp [hdelC]
        · have hXrest : X ∈ allIds rest := by
            simp only [allIds, collectDescendantIds, List.mem_append, List.mem_cons] at hX
            rcases hX with (h1 | h1) | h2
            · exact absurd h1.symm hid
            · exact absurd h1 hXc
            · exact h2
          obtain ⟨rest2, hins, hdel⟩ := insertDelete_blocks rest X nb hXrest hnb2
          refine ⟨Block.columns ci gap cols :: rest2, ?_, ?_⟩
          · rw [editBlocks_cons_columns ci gap cols rest X (.insertAfter nb) hid]
            rw [editColumns_notFound cols X (.insertAfter nb) hXc]
            simp [hins]
          · rw [editBlocks_cons_columns ci gap cols rest2 nb.id .delete
              (fun he => hnbci he.symm)]
            rw [editColumns_notFound cols nb.id .delete hnbcols]
            simp [hdel]
    | heading i lv t st =>
      have hnbi : ¬ nb.id = i := fun he => hnb1 (by simp [collectDescendantIds]; exact he)
      by_cases hid : i = X
      · refine ⟨Block.heading i lv t st :: nb :: rest, ?_, ?_⟩
        · rw [editBlocks_cons_hit (Block.heading i lv t st) rest X (.insertAfter nb) hid]
          simp [editHere]
        · rw [editBlocks_cons_skip (Block.heading i lv t st) (nb :: rest) nb.id .delete
            (fun he => hnbi he.symm) (by simp [Block.kindName])]
          rw [editBlocks_cons_hit nb rest nb.id .delete rfl]
          simp [editHere]
      · have hXrest : X ∈ allIds rest := by
          simp only [allIds, collectDescendantIds, List.mem_append, List.mem_singleton] at hX
          rcases hX with h1 | h2
          · exact absurd h1.symm hid
          · exact h2
        obtain ⟨rest2, hins, hdel⟩ := insertDelete_blocks rest X nb hXrest hnb2
        refine ⟨Block.heading i lv t st :: rest2, ?_, ?_⟩
        · rw [editBlocks_cons_skip (Block.heading i lv t st) rest X (.insertAfter nb) hid
            (by simp [Block.kindName])]
          simp [hins]
        · rw [editBlocks_cons_skip (Block.heading i lv t st) rest2 nb.id .delete
            (fun he => hnbi he.symm) (by simp [Block.kindName])]
          simp [hdel]
    | paragraph i t st =>
      have hnbi : ¬ nb.id = i := fun he => hnb1 (by simp [collectDescendantIds]; exact he)
      by_cases hid : i = X
      · refine ⟨Block.paragraph i t st :: nb :: rest, ?_, ?_⟩
        · rw [editBlocks_cons_hit (Block.paragraph i t st) rest X (.insertAfter nb) hid]
          simp [editHere]
        · rw [editBlocks_cons_skip (Block.paragraph i t st) (nb :: rest) nb.id .delete
            (fun he => hnbi he.symm) (by simp [Block.kindName])]
          rw [editBlocks_cons_hit nb rest nb.id .delete rfl]
          simp [editHere]
      · have hXrest : X ∈ allIds rest := by
          simp only [allIds, collectDescendantIds, List.mem_append, List.mem_singleton] at hX
          rcases hX with h1 | h2
          · exact absurd h1.symm hid
          · exact h2
        obtain ⟨rest2, hins, hdel⟩ := insertDelete_blocks rest X nb hXrest hnb2
        refine ⟨Block.paragraph i t st :: rest2, ?_, ?_⟩
        · rw [editBlocks_cons_skip (Block.paragraph i t st) rest X (.insertAfter nb) hid
            (by simp [Block.kindName])]
          simp [hins]
        · rw [editBlocks_cons_skip (Block.paragraph i t st) rest2 nb.id .delete
            (fun he => hnbi he.symm) (by simp [Block.kindName])]
          simp [hdel]
    | divider i =>
      have hnbi : ¬ nb.id = i := fun he => hnb1 (by simp [collectDescendantIds]; exact he)
      by_cases hid : i = X
      · refine ⟨Block.divider i :: nb :: rest, ?_, ?_⟩
        · rw [editBlocks_cons_hit (Block.divider i) rest X (.insertAfter nb) hid]
          simp [editHere]
        · rw [editBlocks_cons_skip (Block.divider i) (nb :: rest) nb.id .delete
            (fun he => hnbi he.symm) (by simp [Block.kindName])]
          rw [editBlocks_cons_hit nb rest nb.id .delete rfl]
          simp [editHere]
      · have hXrest : X ∈ allIds rest := by
          simp only [allIds, collectDescendantIds, List.mem_append, List.mem_singleton] at hX
          rcases hX with h1 | h2
          · exact absurd h1.symm hid
          · exact h2
        obtain ⟨rest2, hins, hdel⟩ := insertDelete_blocks rest X nb hXrest hnb2
        refine ⟨Block.divider i :: rest2, ?_, ?_⟩
        · rw [editBlocks_cons_skip (Block.divider i) rest X (.insertAfter nb) hid
            (by simp [Block.kindName])]
          simp [hins]
        · rw [editBlocks_cons_skip (Block.divider i) rest2 nb.id .delete
            (fun he => hnbi he.symm) (by simp [Block.kindName])]
          simp [hdel]
    | image i src alt cap w =>
      have hnbi : ¬ nb.id = i := fun he => hnb1 (by simp [collectDescendantIds]; exact he)
      by_cases hid : i = X
      · refine ⟨Block.image i src alt cap w :: nb :: rest, ?_, ?_⟩
        · rw [editBlocks_cons_hit (Block.image i src alt cap w) rest X (.insertAfter nb) hid]
          simp [editHere]
        · rw [editBlocks_cons_skip (Block.image i src alt cap w) (nb :: rest) nb.id .delete
            (fun he => hnbi he.symm) (by simp [Block.kindName])]
          rw [editBlocks_cons_hit nb rest nb.id .delete rfl]
          simp [editHere]
      · have hXrest : X ∈ allIds rest := by
          simp only [allIds, collectDescendantIds, List.mem_append, List.mem_singleton] at hX
          rcases hX with h1 | h2
          · exact absurd h1.symm hid
          · exact h2
        obtain ⟨rest2, hins, hdel⟩ := insertDelete_blocks rest X nb hXrest hnb2
        refine ⟨Block.image i src alt cap w :: rest2, ?_, ?_⟩
        · rw [editBlocks_cons_skip (Block.image i src alt cap w) rest X (.insertAfter nb) hid
            (by simp [Block.kindName])]
          simp [hins]
        · rw [editBlocks_cons_skip (Block.image i src alt cap w) rest2 nb.id .delete
            (fun he => hnbi he.symm) (by simp [Block.kindName])]
          simp [hdel]
    | chart i ti ht o =>
      have hnbi : ¬ nb.id = i := fun he => hnb1 (by simp [collectDescendantIds]; exact he)
      by_cases hid : i = X
      · refine ⟨Block.chart i ti ht o :: nb :: rest, ?_, ?_⟩
        · rw [editBlocks_cons_hit (Block.chart i ti ht o) rest X (.insertAfter nb) hid]
          simp [editHere]
        · rw [editBlocks_cons_skip (Block.chart i ti ht o) (nb :: rest) nb.id .delete
            (fun he => hnbi he.symm) (by simp [Block.kindName])]
          rw [editBlocks_cons_hit nb rest nb.id .delete rfl]
          simp [editHere]
      · have hXrest : X ∈ allIds rest := by
          simp only [allIds, collectDescendantIds, List.mem_append, List.mem_singleton] at hX
          rcases hX with h1 | h2
          · exact absurd h1.symm hid
          · exact h2
        obtain ⟨rest2, hins, hdel⟩ := insertDelete_blocks rest X nb hXrest hnb2
        refine ⟨Block.chart i ti ht o :: rest2, ?_, ?_⟩
        · rw [editBlocks_cons_skip (Block.chart i ti ht o) rest X (.insertAfter nb) hid
            (by simp [Block.kindName])]
          simp [hins]
        · rw [editBlocks_cons_skip (Block.chart i ti ht o) rest2 nb.id .delete
            (fun he => hnbi he.symm) (by simp [Block.kindName])]
          simp [hdel]
    | rich i items =>
      have hnbi : ¬ nb.id = i := fun he => hnb1 (by simp [collectDescendantIds]; exact he)
      by_cases hid : i = X
      · refine ⟨Block.rich i items :: nb :: rest, ?_, ?_⟩
        · rw [editBlocks_cons_hit (Block.rich i items) rest X (.insertAfter nb) hid]
          simp [editHere]
        · rw [editBlocks_cons_skip (Block.rich i items) (nb :: rest) nb.id .delete
            (fun he => hnbi he.symm) (by simp [Block.kindName])]
          rw [editBlocks_cons_hit nb rest nb.id .delete rfl]
          simp [editHere]
      · have hXrest : X ∈ allIds rest := by
          simp only [allIds, collectDescendantIds, List.mem_append, List.mem_singleton] at hX
          rcases hX with h1 | h2
          · exact absurd h1.symm hid
          · exact h2
        obtain ⟨rest2, hins, hdel⟩ := insertDelete_blocks rest X nb hXrest hnb2
        refine ⟨Block.rich i items :: rest2, ?_, ?_⟩
        · rw [editBlocks_cons_skip (Block.rich i items) rest X (.insertAfter nb) hid
            (by simp [Block.kindName])]
          simp [hins]
        · rw [editBlocks_cons_skip (Block.rich i items) rest2 nb.id .delete
            (fun he => hnbi he.symm) (by simp [Block.kindName])]
          simp [hdel]

theorem insertDelete_columns : ∀ (cols : List Column) (X : String) (nb : Block),
    X ∈ columnsDescendantIds cols → nb.id ∉ columnsDescendantIds cols →
    ∃ cols2, editColumns cols X (.insertAfter nb) = some (.ok cols2) ∧
      editColumns cols2 nb.id .delete = some (.ok cols)
  | [], X, nb, hX, _ => by simp [columnsDescendantIds] at hX
  | .mk ci bs :: rest, X, nb, hX, hnb => by
    have hnb1 : nb.id ∉ allIds bs := fun hm =>
      hnb (by simp [columnsDescendantIds]; exact Or.inl hm)
    have hnb2 : nb.id ∉ columnsDescendantIds rest := fun hm =>
      hnb (by simp [columnsDescendantIds]; exact Or.inr hm)
    by_cases hXb : X ∈ allIds bs
    · obtain ⟨bs2, hins, hdel⟩ := insertDelete_blocks bs X nb hXb hnb1
      refine ⟨Column.mk ci bs2 :: rest, ?_, ?_⟩
      · simp [editColumns, hins]
      · simp [editColumns, hdel]
    · have hXrest : X ∈ columnsDescendantIds rest := by
        simp only [columnsDescendantIds, List.mem_append] at hX
        rcases hX with h1 | h2
        · exact absurd h1 hXb
        · exact h2
      obtain ⟨rest2, hins, hdel⟩ := insertDelete_columns rest X nb hXrest hnb2
      refine ⟨Column.mk ci bs :: rest2, ?_, ?_⟩
      · simp [editColumns, editBlocks_notFound bs X (.insertAfter nb) hXb, hins]
      · simp [editColumns, editBlocks_notFound bs nb.id .delete hnb1, hdel]

end


/-- C7: for every document and id `X` present anywhere in the tree
(including inside nested columns), inserting a fresh-id node after `X` and
then deleting that node's id returns a document structurally equal to the
original. -/
theorem c7_insert_delete_roundtrip (page : Page) (X : String) (nb : Block)
    (hX : X ∈ allIds page.blocks) (hnb : nb.id ∉ allIds page.blocks) :
    applyPatch page (Patch.mk [PatchOp.insert_after X nb, PatchOp.delete_block nb.id]) =
      .ok page := by
  obtain ⟨blocks2, hins, hdel⟩ := insertDelete_blocks page.blocks X nb hX hnb
  have h1 : applyOp page.blocks (PatchOp.insert_after X nb) = .ok blocks2 := by
    simp [applyOp, hins]
  have h2 : applyOp blocks2 (PatchOp.delete_block nb.id) = .ok page.blocks := by
    simp [applyOp, hdel]
  simp [applyPatch, applyOps, h1, h2]

/-- Witness for C7: the anchor id lives inside a nested column. -/
theorem c7_witness :
    "x" ∈ allIds [Block.columns "c" none [Column.mk "k" [Block.paragraph "x" "t" none]]] ∧
    (Block.divider "n").id ∉
      allIds [Block.columns "c" none [Column.mk "k" [Block.paragraph "x" "t" none]]] ∧
    applyPatch
        ⟨"p", "t", [Block.columns "c" none [Column.mk "k" [Block.paragraph "x" "t" none]]]⟩
        (Patch.mk [PatchOp.insert_after "x" (Block.divider "n"),
          PatchOp.delete_block (Block.divider "n").id]) =
      .ok ⟨"p", "t", [Block.columns "c" none [Column.mk "k" [Block.paragraph "x" "t" none]]]⟩ := by
  refine ⟨?_, ?_, ?_⟩
  · simp [allIds, collectDescendantIds, columnsDescendantIds]
  · simp [allIds, collectDescendantIds, columnsDescendantIds, Block.id]
  · exact c7_insert_delete_roundtrip
      ⟨"p", "t", [Block.columns "c" none [Column.mk "k" [Block.paragraph "x" "t" none]]]⟩
      "x" (Block.divider "n")
      (by simp [allIds, collectDescendantIds, columnsDescendantIds])
      (by simp [allIds, collectDescendantIds, columnsDescendantIds, Block.id])


mutual

theorem mem_walkAllowed : ∀ (blocks : List Block) (sel : List String) (x : String),
    x ∈ walkAllowed blocks sel ↔
      ∃ b, OccursInList b blocks ∧ b.id ∈ sel ∧ x ∈ collectDescendantIds b
  | [], sel, x => by
    constructor
    · intro hx
      simp [walkAllowed] at hx
    · rintro ⟨b, hocc, _, _⟩
      cases hocc
  | b :: rest, sel, x => by
    cases b with
    | columns ci gap cols =>
      constructor
      · intro hx
        simp only [walkAllowed, List.mem_append] at hx
        rcases hx with (h1 | h1) | h2
        · by_cases hsel : sel.contains (Block.columns ci gap cols).id = true
          · rw [if_pos hsel] at h1
            exact ⟨Block.columns ci gap cols, .head _ _, by simpa using hsel, h1⟩
          · rw [if_neg hsel] at h1
            cases h1
        · obtain ⟨b2, hocc, hsel, hdesc⟩ := (mem_walkAllowedColumns cols sel x).mp h1
          exact ⟨b2, .inColumns _ _ _ _ _ hocc, hsel, hdesc⟩
        · obtain ⟨b2, hocc, hsel, hdesc⟩ := (mem_walkAllowed rest sel x).mp h2
          exact ⟨b2, .tail _ _ _ hocc, hsel, hdesc⟩
      · rintro ⟨b2, hocc, hsel, hdesc⟩
        cases hocc with
        | head =>
          simp only [walkAllowed, List.mem_append]
          left
          left
          rw [if_pos (by simpa using hsel)]
          exact hdesc
        | tail _ _ h =>
          simp only [walkAllowed, List.mem_append]
          right
          exact (mem_walkAllowed rest sel x).mpr ⟨b2, h, hsel, hdesc⟩
        | inColumns _ _ _ _ h =>
          simp only [walkAllowed, List.mem_append]
          left
          right
          exact (mem_walkAllowedColumns cols sel x).mpr ⟨b2, h, hsel, hdesc⟩
    | heading i lv t st =>
      constructor
      · intro hx
        simp only [walkAllowed, List.mem_append] at hx
        rcases hx with (h1 | h1) | h2
        · by_cases hsel : sel.contains (Block.heading i lv t st).id = true
          · rw [if_pos hsel] at h1
            exact ⟨Block.heading i lv t st, .head _ _, by simpa using hsel, h1⟩
          · rw [if_neg hsel] at h1
            cases h1
        · cases h1
        · obtain ⟨b2, hocc, hsel, hdesc⟩ := (mem_walkAllowed rest sel x).mp h2
          exact ⟨b2, .tail _ _ _ hocc, hsel, hdesc⟩
      · rintro ⟨b2, hocc, hsel, hdesc⟩
        cases hocc with
        | head =>
          simp only [walkAllowed, List.mem_append]
          left
          left
          rw [if_pos (by simpa using hsel)]
          exact hdesc
        | tail _ _ h =>
          simp only [walkAllowed, List.mem_append]
          right
          exact (mem_walkAllowed rest sel x).mpr ⟨b2, h, hsel, hdesc⟩
    | paragraph i t st =>
      constructor
      · intro hx
        simp only [walkAllowed, List.mem_append] at hx
        rcases hx with (h1 | h1) | h2
        · by_cases hsel : sel.contains (Block.paragraph i t st).id = true
          · rw [if_pos hsel] at h1
            exact ⟨Block.paragraph i t st, .head _ _, by simpa using hsel, h1⟩
          · rw [if_neg hsel] at h1
            cases h1
        · cases h1
        · obtain ⟨b2, hocc, hsel, hdesc⟩ := (mem_walkAllowed rest sel x).mp h2
          exact ⟨b2, .tail _ _ _ hocc, hsel, hdesc⟩
      · rintro ⟨b2, hocc, hsel, hdesc⟩
        cases hocc with
        | head =>
          simp only [walkAllowed, List.mem_append]
          left
          left
          rw [if_pos (by simpa using hsel)]
          exact hdesc
        | tail _ _ h =>
          simp only [walkAllowed, List.mem_append]
          right
          exact (mem_walkAllowed rest sel x).mpr ⟨b2, h, hsel, hdesc⟩
    | divider i =>
      constructor
      · intro hx
        simp only [walkAllowed, List.mem_append] at hx
        rcases hx with (h1 | h1) | h2
        · by_cases hsel : sel.contains (Block.divider i).id = true
          · rw [if_pos hsel] at h1
            exact ⟨Block.divider i, .head _ _, by simpa using hsel, h1⟩
          · rw [if_neg hsel] at h1
            cases h1
        · cases h1
        · obtain ⟨b2, hocc, hsel, hdesc⟩ := (mem_walkAllowed rest sel x).mp h2
          exact ⟨b2, .tail _ _ _ hocc, hsel, hdesc⟩
      · rintro ⟨b2, hocc, hsel, hdesc⟩
        cases hocc with
        | head =>
          simp only [walkAllowed, List.mem_append]
          left
          left
          rw [if_pos (by simpa using hsel)]
          exact hdesc
        | tail _ _ h =>
          simp only [walkAllowed, List.mem_append]
          right
          exact (mem_walkAllowed rest sel x).mpr ⟨b2, h, hsel, hdesc⟩
    | image i src alt cap w =>
      constructor
      · intro hx
        simp only [walkAllowed, List.mem_append] at hx
        rcases hx with (h1 | h1) | h2
        · by_cases hsel : sel.contains (Block.image i src alt cap w).id = true
          · rw [if_pos hsel] at h1
            exact ⟨Block.image i src alt cap w, .head _ _, by simpa using hsel, h1⟩
          · rw [if_neg hsel] at h1
            cases h1
        · cases h1
        · obtain ⟨b2, hocc, hsel, hdesc⟩ := (mem_walkAllowed rest sel x).mp h2
          exact ⟨b2, .tail _ _ _ hocc, hsel, hdesc⟩
      · rintro ⟨b2, hocc, hsel, hdesc⟩
        cases hocc with
        | head =>
          simp only [walkAllowed, List.mem_append]
          left
          left
          rw [if_pos (by simpa using hsel)]
          exact hdesc
        | tail _ _ h =>
          simp only [walkAllowed, List.mem_append]
          right
          exact (mem_walkAllowed rest sel x).mpr ⟨b2, h, hsel, hdesc⟩
    | chart i ti ht o =>
      constructor
      · intro hx
        simp only [walkAllowed, List.mem_append] at hx
        rcases hx with (h1 | h1) | h2
        · by_cases hsel : sel.contains (Block.chart i ti ht o).id = true
          · rw [if_pos hsel] at h1
            exact ⟨Block.chart i ti ht o, .head _ _, by simpa using hsel, h1⟩
          · rw [if_neg hsel] at h1
            cases h1
        · cases h1
        · obtain ⟨b2, hocc, hsel, hdesc⟩ := (mem_walkAllowed rest sel x).mp h2
          exact ⟨b2, .tail _ _ _ hocc, hsel, hdesc⟩
      · rintro ⟨b2, hocc, hsel, hdesc⟩
        cases hocc with
        | head =>
          simp only [walkAllowed, List.mem_append]
          left
          left
          rw [if_pos (by simpa using hsel)]
          exact hdesc
        | tail _ _ h =>
          simp only [walkAllowed, List.mem_append]
          right
          exact (mem_walkAllowed rest sel x).mpr ⟨b2, h, hsel, hdesc⟩
    | rich i items =>
      constructor
      · intro hx
        simp only [walkAllowed, List.mem_append] at hx
        rcases hx with (h1 | h1) | h2
        · by_cases hsel : sel.contains (Block.rich i items).id = true
          · rw [if_pos hsel] at h1
            exact ⟨Block.rich i items, .head _ _, by simpa using hsel, h1⟩
          · rw [if_neg hsel] at h1
            cases h1
        · cases h1
        · obtain ⟨b2, hocc, hsel, hdesc⟩ := (mem_walkAllowed rest sel x).mp h2
          exact ⟨b2, .tail _ _ _ hocc, hsel, hdesc⟩
      · rintro ⟨b2, hocc, hsel, hdesc⟩
        cases hocc with
        | head =>
          simp only [walkAllowed, List.mem_append]
          left
          left
          rw [if_pos (by simpa using hsel)]
          exact hdesc
        | tail _ _ h =>
          simp only [walkAllowed, List.mem_append]
          right
          exact (mem_walkAllowed rest sel x).mpr ⟨b2, h, hsel, hdesc⟩

theorem mem_walkAllowedColumns : ∀ (cols : List Column) (sel : List String) (x : String),
    x ∈ walkAllowedColumns cols sel ↔
      ∃ b, OccursInColumns b cols ∧ b.id ∈ sel ∧ x ∈ collectDescendantIds b
  | [], sel, x => by
    constructor
    · intro hx
      simp [walkAllowedColumns] at hx
    · rintro ⟨b, hocc, _, _⟩
      cases hocc
  | .mk ci bs :: rest, sel, x => by
    constructor
    · intro hx
      simp only [walkAllowedColumns, List.mem_append] at hx
      rcases hx with h1 | h2
      · obtain ⟨b2, hocc, hsel, hdesc⟩ := (mem_walkAllowed bs sel x).mp h1
        exact ⟨b2, .inColumn _ _ _ _ hocc, hsel, hdesc⟩
      · obtain ⟨b2, hocc, hsel, hdesc⟩ := (mem_walkAllowedColumns rest sel x).mp h2
        exact ⟨b2, .laterColumn _ _ _ hocc, hsel, hdesc⟩
    · rintro ⟨b2, hocc, hsel, hdesc⟩
      cases hocc with
      | inColumn _ _ _ h =>
        simp only [walkAllowedColumns, List.mem_append]
        left
        exact (mem_walkAllowed bs sel x).mpr ⟨b2, h, hsel, hdesc⟩
      | laterColumn _ _ h =>
        simp only [walkAllowedColumns, List.mem_append]
        right
        exact (mem_walkAllowedColumns rest sel x).mpr ⟨b2, h, hsel, hdesc⟩

end


/-- C2 (amended): `isPatchInSelectedScope` returns true iff some selected id
exists in the tree AND every op's target identifier (`id`, or `afterId` for
insert_after) is the id of a selected node that exists in the tree or of one
of its descendants (recursing through columns). The nonemptiness conjunct is
what the claim's bare iff was missing: with no selected id in the tree the
function returns false even for the empty patch, whose ops trivially satisfy
the membership condition. -/
theorem c2_scope_characterization (patch : Patch) (page : Page) (sel : List String) :
    isPatchInSelectedScope patch page sel = true ↔
      ((∃ b, OccursInList b page.blocks ∧ b.id ∈ sel) ∧
        ∀ op ∈ patch.ops, ∃ b, OccursInList b page.blocks ∧ b.id ∈ sel ∧
          op.targetId ∈ collectDescendantIds b) := by
  simp only [isPatchInSelectedScope]
  by_cases hemp : (walkAllowed page.blocks sel).isEmpty = true
  · rw [if_pos hemp]
    constructor
    · intro hfalse
      simp at hfalse
    · rintro ⟨⟨b, hocc, hsel⟩, _⟩
      have hmem := (mem_walkAllowed page.blocks sel b.id).mpr
        ⟨b, hocc, hsel, collectDescendantIds_self b⟩
      have hnil : walkAllowed page.blocks sel = [] := by simpa [List.isEmpty_iff] using hemp
      rw [hnil] at hmem
      simp at hmem
  · rw [if_neg hemp]
    rw [List.all_eq_true]
    constructor
    · intro hall
      constructor
      · cases hwa : walkAllowed page.blocks sel with
        | nil =>
          rw [hwa] at hemp
          simp at hemp
        | cons a rest0 =>
          have hmem : a ∈ walkAllowed page.blocks sel := by
            rw [hwa]
            exact List.mem_cons_self _ _
          obtain ⟨b, hocc, hsel, _⟩ := (mem_walkAllowed page.blocks sel a).mp hmem
          exact ⟨b, hocc, hsel⟩
      · intro op hop
        have hcont := hall op hop
        have hmem : op.targetId ∈ walkAllowed page.blocks sel := by simpa using hcont
        exact (mem_walkAllowed page.blocks sel op.targetId).mp hmem
    · rintro ⟨_, hall⟩
      intro op hop
      obtain ⟨b, hocc, hsel, hdesc⟩ := hall op hop
      have hmem := (mem_walkAllowed page.blocks sel op.targetId).mpr ⟨b, hocc, hsel, hdesc⟩
      simpa using hmem

/-- C2, as stated, fails at the empty patch with no selected id in the tree:
the claimed iff's right side holds vacuously while the function returns
false. -/
theorem c2_counterexample :
    ¬ ((isPatchInSelectedScope (Patch.mk []) ⟨"p", "t", [Block.divider "a"]⟩ ["zzz"] = true) ↔
      ∀ op ∈ ([] : List PatchOp), ∃ b, OccursInList b [Block.divider "a"] ∧
        b.id ∈ ["zzz"] ∧ op.targetId ∈ collectDescendantIds b) := by
  intro hiff
  have htrue : isPatchInSelectedScope (Patch.mk []) ⟨"p", "t", [Block.divider "a"]⟩ ["zzz"]
      = true := by
    refine hiff.mpr ?_
    intro op hop
    simp at hop
  have hfalse : isPatchInSelectedScope (Patch.mk []) ⟨"p", "t", [Block.divider "a"]⟩ ["zzz"]
      = false := by
    simp [isPatchInSelectedScope, walkAllowed, Block.id]
  rw [htrue] at hfalse
  simp at hfalse


/-- C4, as stated, is refuted: a heading with existing style `color: red`
updated with plain content and supplied style `fontSize: 12px` ends with
textStyle `fontSize: 12px` only — the existing `color` key is dropped, not
preserved as the claimed merge would have it. -/
theorem c4_counterexample :
    updateBlockContent (Block.heading "h" 1 "old" (some ⟨some "red", none, none, none⟩)) "x"
        (some ⟨none, some "12px", none, none⟩) =
      .ok (Block.heading "h" 1 "x" (some ⟨none, some "12px", none, none⟩)) ∧
    (⟨none, some "12px", none, none⟩ : TextStyle) ≠
      mergeTextStyleRecords ⟨some "red", none, none, none⟩ ⟨none, some "12px", none, none⟩ := by
  constructor
  · rfl
  · decide

/-- C4 (amended): for an `update_content` op on a heading or paragraph, the
resulting node's textStyle is the merge of the style parsed from the content
HTML with the supplied style (supplied values win); the node's existing
textStyle does not participate — whenever that merge is nonempty it replaces
the existing style outright (the result below does not depend on `st0`). -/
theorem c4_supplied_style_replaces (i t content : String) (lv : Nat)
    (st0 : Option TextStyle) (sup : Option TextStyle) (m : TextStyle)
    (hm : mergeStyle (extractTextAndStyle content).2 sup = some m) :
    updateBlockContent (Block.heading i lv t st0) content sup =
      .ok (Block.heading i lv (extractTextAndStyle content).1 (some m)) ∧
    updateBlockContent (Block.paragraph i t st0) content sup =
      .ok (Block.paragraph i (extractTextAndStyle content).1 (some m)) := by
  constructor <;> simp [updateBlockContent, hm]

/-- Witness for C4 (amended) at a concrete heading and paragraph. -/
theorem c4_witness :
    mergeStyle (extractTextAndStyle "x").2 (some ⟨none, some "12px", none, none⟩) =
      some ⟨none, some "12px", none, none⟩ ∧
    (updateBlockContent (Block.heading "h" 1 "old" (some ⟨some "red", none, none, none⟩)) "x"
        (some ⟨none, some "12px", none, none⟩) =
      .ok (Block.heading "h" 1 (extractTextAndStyle "x").1
        (some ⟨none, some "12px", none, none⟩)) ∧
     updateBlockContent (Block.paragraph "h" "old" (some ⟨some "red", none, none, none⟩)) "x"
        (some ⟨none, some "12px", none, none⟩) =
      .ok (Block.paragraph "h" (extractTextAndStyle "x").1
        (some ⟨none, some "12px", none, none⟩))) :=
  ⟨rfl, c4_supplied_style_replaces "h" "old" "x" 1 (some ⟨some "red", none, none, none⟩)
    (some ⟨none, some "12px", none, none⟩) ⟨none, some "12px", none, none⟩ rfl⟩


/-- C9, as stated, is refuted: "Foo Bar" canonicalizes to "foo_bar", which is
not a recognized token, and the normalizer returns "foo_bar", not the
original string unchanged. -/
theorem c9_counterexample :
    canonicalToken "Foo Bar" ∉ recognizedTokens ∧ normalizeOpName "Foo Bar" ≠ "Foo Bar" := by
  constructor
  · decide
  · decide

/-- C9 (amended): an operation-name token whose canonical form (trimmed,
camel boundaries underscored, lower-cased, non-alphanumeric runs collapsed
to `_`, edge underscores stripped) is not a recognized canonical name or
synonym passes through as that canonical form — in particular a token
already in canonical form passes through unchanged. -/
theorem c9_unrecognized_passes_canonicalized (s : String)
    (h : canonicalToken s ∉ recognizedTokens) :
    normalizeOpName s = canonicalToken s := by
  unfold normalizeOpName canonicalToken
  by_cases hraw : jsTrim s = ""
  · rw [if_pos hraw, hraw]
    rfl
  · rw [if_neg hraw]
    unfold canonicalToken at h
    simp only [recognizedTokens, List.mem_cons, List.not_mem_nil, not_or, or_false] at h
    obtain ⟨h1, h2, h3, h4, h5, h6, h7, h8, h9, h10, h11, h12, h13, h14, h15, h16⟩ := h
    simp [h1, h2, h3, h4, h5, h6, h7, h8, h9, h10, h11, h12, h13, h14, h15, h16]

/-- Witness for C9 (amended) at the unrecognized token "Foo Bar". -/
theorem c9_witness :
    canonicalToken "Foo Bar" ∉ recognizedTokens ∧
    normalizeOpName "Foo Bar" = canonicalToken "Foo Bar" :=
  ⟨by decide, c9_unrecognized_passes_canonicalized "Foo Bar" (by decide)⟩


/-- The raw op of the C8 scenario: operation name "Update", the target id
under `blockId`, the content under `text`, nothing else present. -/
def c8RawOp (B T : String) : RawOp :=
  { emptyRawOp with op := some "Update", blockId := some B, text := some T }

/-- C8, as stated, is refuted on whitespace: the normalizer adopts relocated
values trimmed, so a blockId of " b1 " yields id "b1", not the given value. -/
theorem c8_counterexample :
    (firstOp (normalizePatchLike "0" (RawPatch.mk [c8RawOp " b1 " "Hello"]))).bind RawOp.op =
      some "update_content" ∧
    (firstOp (normalizePatchLike "0" (RawPatch.mk [c8RawOp " b1 " "Hello"]))).bind RawOp.id =
      some "b1" ∧
    some "b1" ≠ some " b1 " := by
  refine ⟨rfl, rfl, by decide⟩

/-- One-op patches normalize pointwise. -/
theorem firstOp_normalize_single (now : String) (o : RawOp) :
    firstOp (normalizePatchLike now (RawPatch.mk [o])) = some (normalizeRawOp now o) := rfl

/-- Computation of the normalizer on the C8 op shape: the op name maps to
`update_content`, the id is relocated from `blockId` (trimmed), the content
from `text` (trimmed); all other fields are carried over. -/
theorem normalizeRawOp_c8 (now B T : String) (hB : ¬ jsTrim B = "") (hT : ¬ jsTrim T = "") :
    normalizeRawOp now (c8RawOp B T) =
      { c8RawOp B T with
          op := some "update_content"
          id := some (jsTrim B)
          content := some (jsTrim T) } := by
  have hnop : ncOpName (c8RawOp B T) = "update_content" := rfl
  have hupd : ncUpdateContent "update_content" (c8RawOp B T)
      (ncStyle (c8RawOp B T) { c8RawOp B T with op := some "update_content" }) =
      { c8RawOp B T with
          op := some "update_content"
          id := some (jsTrim B)
          content := some (jsTrim T) } := by
    simp [ncStyle, ncUpdateContent, c8RawOp, emptyRawOp, readStringO, firstSomeO, hB, hT]
  simp only [normalizeRawOp, hnop]
  rw [hupd]
  rfl

/-- C8 (amended): feeding the normalizer an op with operation name "Update",
field `blockId` instead of `id`, and `text` instead of `content` yields a
canonical `update_content` op whose id and content are the given blockId and
text values trimmed of surrounding whitespace (values are adopted only when
nonempty after trimming); no identifier or content value is invented. -/
theorem c8_normalizer_non_fabrication (B T now : String)
    (hB : ¬ jsTrim B = "") (hT : ¬ jsTrim T = "") :
    (firstOp (normalizePatchLike now (RawPatch.mk [c8RawOp B T]))).bind RawOp.op =
      some "update_content" ∧
    (firstOp (normalizePatchLike now (RawPatch.mk [c8RawOp B T]))).bind RawOp.id =
      some (jsTrim B) ∧
    (firstOp (normalizePatchLike now (RawPatch.mk [c8RawOp B T]))).bind RawOp.content =
      some (jsTrim T) := by
  rw [firstOp_normalize_single, normalizeRawOp_c8 now B T hB hT]
  exact ⟨rfl, rfl, rfl⟩

/-- Witness for C8 (amended) at blockId "b1" and text "Hello". -/
theorem c8_witness :
    ¬ jsTrim "b1" = "" ∧ ¬ jsTrim "Hello" = "" ∧
    ((firstOp (normalizePatchLike "0" (RawPatch.mk [c8RawOp "b1" "Hello"]))).bind RawOp.op =
      some "update_content" ∧
    (firstOp (normalizePatchLike "0" (RawPatch.mk [c8RawOp "b1" "Hello"]))).bind RawOp.id =
      some (jsTrim "b1") ∧
    (firstOp (normalizePatchLike "0" (RawPatch.mk [c8RawOp "b1" "Hello"]))).bind RawOp.content =
      some (jsTrim "Hello")) :=
  ⟨by decide, by decide,
    c8_normalizer_non_fabrication "b1" "Hello" "0" (by decide) (by decide)⟩


/-- Setting then looking up the same key in an association map. -/
theorem lookupAssoc_set_self {α : Type} (m : List (String × α)) (k : String) (v : α) :
    lookupAssoc (setAssoc m k v) k = some v := by
  induction m with
  | nil => simp [setAssoc, lookupAssoc]
  | cons pair rest ih =>
    obtain ⟨k0, v0⟩ := pair
    by_cases hk : k0 = k
    · simp [setAssoc, lookupAssoc, hk]
    · simp [setAssoc, lookupAssoc, hk, ih]

/-- C3: a patch that applies successfully through the patch endpoint pushes
the pre-mutation snapshot; the next undo restores a document structurally
equal to the original (in cache and on disk), and a further undo on the
now-empty stack answers the "Nothing to undo" payload — a returned negative
result, not a thrown error — leaving the stored document untouched. -/
theorem c3_undo_roundtrip (st : ServerState) (pageId : String) (page newPage : Page)
    (patch : Patch) (sel : List String)
    (hstack : (lookupAssoc st.historyStackByPage pageId).getD [] = [])
    (hscope : isPatchInSelectedScope patch page sel = true)
    (happly : applyPatch page patch = .ok newPage) :
    (handleApplyPatch st pageId page patch sel false).2 = .ok newPage ∧
    (handleUndo (handleApplyPatch st pageId page patch sel false).1 pageId).2 = .ok page ∧
    lookupAssoc (handleUndo (handleApplyPatch st pageId page patch sel false).1 pageId).1.pageCache
      pageId = some page ∧
    lookupAssoc (handleUndo (handleApplyPatch st pageId page patch sel false).1 pageId).1.pageFiles
      pageId = some page ∧
    (handleUndo (handleUndo (handleApplyPatch st pageId page patch sel false).1 pageId).1
      pageId).2 = .err "Nothing to undo" ∧
    (handleUndo (handleUndo (handleApplyPatch st pageId page patch sel false).1 pageId).1
      pageId).1.pageCache =
      (handleUndo (handleApplyPatch st pageId page patch sel false).1 pageId).1.pageCache ∧
    (handleUndo (handleUndo (handleApplyPatch st pageId page patch sel false).1 pageId).1
      pageId).1.pageFiles =
      (handleUndo (handleApplyPatch st pageId page patch sel false).1 pageId).1.pageFiles := by
  have h1 : handleApplyPatch st pageId page patch sel false =
      (⟨setAssoc st.pageCache pageId newPage, setAssoc st.pageFiles pageId newPage,
        setAssoc st.historyStackByPage pageId [page]⟩, .ok newPage) := by
    simp [handleApplyPatch, hscope, happly, pushHistory, savePage, hstack, MAX_HISTORY]
  rw [h1]
  have h2 : handleUndo
      (⟨setAssoc st.pageCache pageId newPage, setAssoc st.pageFiles pageId newPage,
        setAssoc st.historyStackByPage pageId [page]⟩ : ServerState) pageId =
      (⟨setAssoc (setAssoc st.pageCache pageId newPage) pageId page,
        setAssoc (setAssoc st.pageFiles pageId newPage) pageId page,
        setAssoc (setAssoc st.historyStackByPage pageId [page]) pageId []⟩, .ok page) := by
    simp [handleUndo, lookupAssoc_set_self, savePage]
  rw [h2]
  refine ⟨rfl, rfl, lookupAssoc_set_self _ _ _, lookupAssoc_set_self _ _ _, ?_, ?_, ?_⟩ <;>
    simp [handleUndo, lookupAssoc_set_self]


/-- Witness for C3 at a concrete state, page and patch. -/
theorem c3_witness :
    (lookupAssoc (ServerState.mk [] [] []).historyStackByPage "demo").getD [] = [] ∧
    isPatchInSelectedScope (Patch.mk [PatchOp.update_content "p1" "yo" none])
      ⟨"demo", "t", [Block.paragraph "p1" "hi" none]⟩ ["p1"] = true ∧
    applyPatch ⟨"demo", "t", [Block.paragraph "p1" "hi" none]⟩
      (Patch.mk [PatchOp.update_content "p1" "yo" none]) =
      .ok ⟨"demo", "t", [Block.paragraph "p1" "yo" none]⟩ ∧
    ((handleApplyPatch ⟨[], [], []⟩ "demo" ⟨"demo", "t", [Block.paragraph "p1" "hi" none]⟩
        (Patch.mk [PatchOp.update_content "p1" "yo" none]) ["p1"] false).2 =
      .ok ⟨"demo", "t", [Block.paragraph "p1" "yo" none]⟩ ∧
     (handleUndo (handleApplyPatch ⟨[], [], []⟩ "demo"
        ⟨"demo", "t", [Block.paragraph "p1" "hi" none]⟩
        (Patch.mk [PatchOp.update_content "p1" "yo" none]) ["p1"] false).1 "demo").2 =
      .ok ⟨"demo", "t", [Block.paragraph "p1" "hi" none]⟩ ∧
     (handleUndo (handleUndo (handleApplyPatch ⟨[], [], []⟩ "demo"
        ⟨"demo", "t", [Block.paragraph "p1" "hi" none]⟩
        (Patch.mk [PatchOp.update_content "p1" "yo" none]) ["p1"] false).1 "demo").1
        "demo").2 = .err "Nothing to undo") := by
  have hscope : isPatchInSelectedScope (Patch.mk [PatchOp.update_content "p1" "yo" none])
      ⟨"demo", "t", [Block.paragraph "p1" "hi" none]⟩ ["p1"] = true := by
    simp [isPatchInSelectedScope, walkAllowed, collectDescendantIds, Block.id,
      PatchOp.targetId]
  have happly : applyPatch ⟨"demo", "t", [Block.paragraph "p1" "hi" none]⟩
      (Patch.mk [PatchOp.update_content "p1" "yo" none]) =
      .ok ⟨"demo", "t", [Block.paragraph "p1" "yo" none]⟩ := by
    simp [applyPatch, applyOps, applyOp, editBlocks, editHere, updateBlockContent, Block.id]
    exact ⟨rfl, by decide⟩
  have hmain := c3_undo_roundtrip ⟨[], [], []⟩ "demo"
    ⟨"demo", "t", [Block.paragraph "p1" "hi" none]⟩
    ⟨"demo", "t", [Block.paragraph "p1" "yo" none]⟩
    (Patch.mk [PatchOp.update_content "p1" "yo" none]) ["p1"] rfl hscope happly
  exact ⟨rfl, hscope, happly, hmain.1, hmain.2.1, hmain.2.2.2.2.1⟩


/-- C5: evaluation of the patch handler at a failing store write. The write
fails, the endpoint answers an error — yet the pre-mutation snapshot pushed
by `pushHistory` remains on the undo stack, the new page sits in the
in-memory cache, and nothing was durably written: push-to-history and
store-write are not treated as one unit, contradicting the claim. -/
theorem c5_push_survives_failed_store :
    (handleApplyPatch ⟨[], [], []⟩ "demo" ⟨"demo", "t", [Block.paragraph "p1" "hi" none]⟩
      (Patch.mk [PatchOp.update_content "p1" "yo" none]) ["p1"] true).2 =
      .err "Failed to apply patch" ∧
    lookupAssoc (handleApplyPatch ⟨[], [], []⟩ "demo"
      ⟨"demo", "t", [Block.paragraph "p1" "hi" none]⟩
      (Patch.mk [PatchOp.update_content "p1" "yo" none]) ["p1"] true).1.historyStackByPage
      "demo" = some [⟨"demo", "t", [Block.paragraph "p1" "hi" none]⟩] ∧
    (handleApplyPatch ⟨[], [], []⟩ "demo" ⟨"demo", "t", [Block.paragraph "p1" "hi" none]⟩
      (Patch.mk [PatchOp.update_content "p1" "yo" none]) ["p1"] true).1.pageFiles = [] ∧
    lookupAssoc (handleApplyPatch ⟨[], [], []⟩ "demo"
      ⟨"demo", "t", [Block.paragraph "p1" "hi" none]⟩
      (Patch.mk [PatchOp.update_content "p1" "yo" none]) ["p1"] true).1.pageCache "demo" =
      some ⟨"demo", "t", [Block.paragraph "p1" "yo" none]⟩ := by
  have hscope : isPatchInSelectedScope (Patch.mk [PatchOp.update_content "p1" "yo" none])
      ⟨"demo", "t", [Block.paragraph "p1" "hi" none]⟩ ["p1"] = true := by
    simp [isPatchInSelectedScope, walkAllowed, collectDescendantIds, Block.id,
      PatchOp.targetId]
  have happly : applyPatch ⟨"demo", "t", [Block.paragraph "p1" "hi" none]⟩
      (Patch.mk [PatchOp.update_content "p1" "yo" none]) =
      .ok ⟨"demo", "t", [Block.paragraph "p1" "yo" none]⟩ := by
    simp [applyPatch, applyOps, applyOp, editBlocks, editHere, updateBlockContent, Block.id]
    exact ⟨rfl, by decide⟩
  have h1 : handleApplyPatch ⟨[], [], []⟩ "demo"
      ⟨"demo", "t", [Block.paragraph "p1" "hi" none]⟩
      (Patch.mk [PatchOp.update_content "p1" "yo" none]) ["p1"] true =
      (⟨[("demo", ⟨"demo", "t", [Block.paragraph "p1" "yo" none]⟩)], [],
        [("demo", [⟨"demo", "t", [Block.paragraph "p1" "hi" none]⟩])]⟩,
       .err "Failed to apply patch") := by
    simp [handleApplyPatch, hscope, happly, pushHistory, savePage, lookupAssoc, setAssoc,
      MAX_HISTORY]
  rw [h1]
  exact ⟨rfl, by simp [lookupAssoc], rfl, by simp [lookupAssoc]⟩


/-- C10: a pushed snapshot is a deep copy at a fresh reference. The pushed
entry holds the live page's value at push time; mutating any previously
existing object — the live page (`h.liveRef`, which is provably a different
reference) or any other stored document — leaves the entry's value
untouched, so the entry popped by a later undo is structurally identical to
the page as it was when pushed. -/
theorem c10_snapshot_deep_copy (h : HeapState) (v : Page) (r : Nat)
    (hlive : h.liveRef < h.heap.length) (hr : r ≠ h.heap.length) :
    (pushHistoryHeap h).histRefs = h.histRefs ++ [h.heap.length] ∧
    (pushHistoryHeap h).heap.getD h.heap.length ⟨"", "", []⟩ =
      h.heap.getD h.liveRef ⟨"", "", []⟩ ∧
    (writeRef (pushHistoryHeap h) r v).heap.getD h.heap.length ⟨"", "", []⟩ =
      h.heap.getD h.liveRef ⟨"", "", []⟩ ∧
    h.liveRef ≠ h.heap.length := by
  refine ⟨rfl, ?_, ?_, Nat.ne_of_lt hlive⟩
  · simp [pushHistoryHeap, List.getD_append_right]
  · simp [pushHistoryHeap, writeRef, List.getD, List.getElem?_set_ne hr,
      List.getElem?_append_right]

/-- Witness for C10 at a concrete heap: the live page is mutated after the
push and the snapshot still reads the pushed value. -/
theorem c10_witness :
    (HeapState.mk [⟨"demo", "t", []⟩] 0 []).liveRef <
      (HeapState.mk [⟨"demo", "t", []⟩] 0 []).heap.length ∧
    (0 : Nat) ≠ (HeapState.mk [⟨"demo", "t", []⟩] 0 []).heap.length ∧
    (writeRef (pushHistoryHeap (HeapState.mk [⟨"demo", "t", []⟩] 0 [])) 0
        ⟨"demo", "mutated", []⟩).heap.getD
      (HeapState.mk [⟨"demo", "t", []⟩] 0 []).heap.length ⟨"", "", []⟩ =
      (HeapState.mk [⟨"demo", "t", []⟩] 0 []).heap.getD
        (HeapState.mk [⟨"demo", "t", []⟩] 0 []).liveRef ⟨"", "", []⟩ := by
  refine ⟨by decide, by decide, ?_⟩
  exact (c10_snapshot_deep_copy (HeapState.mk [⟨"demo", "t", []⟩] 0 [])
    ⟨"demo", "mutated", []⟩ 0 (by decide) (by decide)).2.2.1

end BlockPatch
